import Mathlib

/-!
# Service availability checker (`test-ips/service-checker.go`)

A shallow embedding of the concurrent TCP prober and the proofs of its
contract.

* Go strings are Lean `String`s handled through their list of characters
  (valid UTF-8 text only).
* `time.Duration` is an `Int` number of nanoseconds; `Duration.Seconds()` and
  the verb `%.2f` are computed on exact values of doubles (`Float64`).
* `checkService` is the list of effects one call performs, given what the
  network and the clock answer to that call (`CheckEnv`).
* `main`, the closing goroutine and the `checkService` goroutines are threads
  of a transition system (`Sys`, `step`): one step is one atomic action of one
  thread, a schedule is the list of the threads picked in turn, and a blocked
  thread that is picked makes no move.
-/

set_option maxRecDepth 100000

namespace ServiceChecker

/-! ## Library functions used by the program -/

/-- Go's `unicode.IsSpace`: the Latin-1 spaces `\t \n \v \f \r`, space, U+0085,
U+00A0, and the other code points with the White_Space property. -/
def isSpace (c : Char) : Bool :=
  c = '\t' || c = '\n' || c = '\x0b' || c = '\x0c' || c = '\r' || c = ' ' ||
  c.val = 0x85 || c.val = 0xA0 || c.val = 0x1680 ||
  (0x2000 ≤ c.val && c.val ≤ 0x200a) ||
  c.val = 0x2028 || c.val = 0x2029 || c.val = 0x202f || c.val = 0x205f ||
  c.val = 0x3000

/-- Go's `strings.TrimSpace`: the string without its leading and trailing
white space. -/
def TrimSpace (s : String) : String :=
  ⟨((s.data.dropWhile isSpace).reverse.dropWhile isSpace).reverse⟩

/-- Pieces of a list of characters between the occurrences of `sep`; there is
one more piece than there are occurrences. -/
def splitChars (sep : Char) : List Char → List (List Char)
  | [] => [[]]
  | c :: cs =>
    if c = sep then [] :: splitChars sep cs
    else
      match splitChars sep cs with
      | [] => [[c]]
      | t :: ts => (c :: t) :: ts

/-- Go's `strings.Split(s, sep)` for a separator of one character. -/
def Split (s : String) (sep : Char) : List String :=
  (splitChars sep s.data).map String.mk

/-- Whether `sub` occurs in `s` as a contiguous block. -/
def containsChars : List Char → List Char → Bool
  | [], sub => sub.isEmpty
  | c :: cs, sub => sub.isPrefixOf (c :: cs) || containsChars cs sub

/-- Go's `strings.Contains(s, substr)`. -/
def Contains (s substr : String) : Bool :=
  containsChars s.data substr.data

/-- Value of a Go `int64` computation: the integer reduced to the signed
64-bit range. -/
def wrapInt64 (x : Int) : Int :=
  (x + 2 ^ 63) % 2 ^ 64 - 2 ^ 63

/-- Go's `time.Second`, in nanoseconds. -/
def Second : Int := 1000000000

/-! ## Float arithmetic and formatting used by the report

A `float64` is kept as sign, integer mantissa and binary exponent, so that its
value is an exact rational; every operation computes the exact result and
rounds it to the nearest double, ties to even, as IEEE 754 does. Magnitudes
stay far below `2^1024`, so overflow to infinity is not part of the model. -/

/-- A finite `float64`: the value is `(-1)^neg * mant * 2^exp`. -/
structure Float64 where
  neg : Bool
  mant : Nat
  exp : Int
deriving DecidableEq

/-- Exact value of a `float64`. -/
def Float64.toRat (x : Float64) : ℚ :=
  (if x.neg then -1 else 1) * (x.mant : ℚ) * (2 : ℚ) ^ x.exp

/-- Nearest integer to `n / d`, ties to the even one. -/
def roundHalfEven (n d : Nat) : Nat :=
  if 2 * (n % d) < d then n / d
  else if d < 2 * (n % d) then n / d + 1
  else if n / d % 2 = 0 then n / d
  else n / d + 1

/-- Number of binary digits of `n` (with `fuel` at least `n`). -/
def bitLen : Nat → Nat → Nat
  | 0, _ => 0
  | fuel + 1, n => if n = 0 then 0 else bitLen fuel (n / 2) + 1

/-- Numerator and denominator of `n / (d * 2^e)`. -/
def scaleQuot (n d : Nat) (e : Int) : Nat × Nat :=
  if 0 ≤ e then (n, d * 2 ^ e.toNat) else (n * 2 ^ (-e).toNat, d)

/-- Exponent `e` with `2^52 <= n / (d * 2^e) < 2^53`, for `n / d > 0`: one of
the two candidates given by the bit lengths. -/
def float64ExpRaw (n d : Nat) : Int :=
  if (scaleQuot n d ((bitLen n n : Int) - (bitLen d d : Int) - 52)).2 * 2 ^ 52 ≤
      (scaleQuot n d ((bitLen n n : Int) - (bitLen d d : Int) - 52)).1 then
    (bitLen n n : Int) - (bitLen d d : Int) - 52
  else (bitLen n n : Int) - (bitLen d d : Int) - 53

/-- Exponent of the double nearest to `n / d`: the normal exponent, or the
least exponent `-1074` in the subnormal range. -/
def float64Exp (n d : Nat) : Int :=
  max (float64ExpRaw n d) (-1074)

/-- The double nearest to `(-1)^neg * n / d`, ties to even: a mantissa of 53
bits at the exponent of the value. -/
def roundFloat64 (neg : Bool) (n d : Nat) : Float64 :=
  if n = 0 then { neg := false, mant := 0, exp := 0 }
  else
    { neg := neg,
      mant := roundHalfEven (scaleQuot n d (float64Exp n d)).1 (scaleQuot n d (float64Exp n d)).2,
      exp := float64Exp n d }

/-- Go's conversion `float64(i)` of an integer. -/
def float64OfInt (i : Int) : Float64 :=
  roundFloat64 (decide (i < 0)) i.natAbs 1

/-- Go's `x / y` on `float64`, for `y` other than zero. -/
def float64Div (x y : Float64) : Float64 :=
  roundFloat64 (xor x.neg y.neg) (scaleQuot x.mant y.mant (y.exp - x.exp)).1
    (scaleQuot x.mant y.mant (y.exp - x.exp)).2

/-- Mantissa of a double with its sign. -/
def signedMant (x : Float64) : Int :=
  if x.neg then -(x.mant : Int) else x.mant

/-- Go's `x + y` on `float64`: the exact sum at the smaller exponent, rounded. -/
def float64Add (x y : Float64) : Float64 :=
  let e := min x.exp y.exp
  let s : Int := signedMant x * 2 ^ (x.exp - e).toNat + signedMant y * 2 ^ (y.exp - e).toNat
  roundFloat64 (decide (s < 0)) (scaleQuot s.natAbs 1 (-e)).1 (scaleQuot s.natAbs 1 (-e)).2

/-- Go's `Duration.Seconds()`: `sec := d / Second; nsec := d % Second;
return float64(sec) + float64(nsec)/1e9`, with Go's truncating division. -/
def Seconds (d : Int) : Float64 :=
  float64Add (float64OfInt (d.tdiv Second))
    (float64Div (float64OfInt (d.tmod Second)) (float64OfInt 1000000000))

/-- Decimal digit character of `n % 10`. -/
def digitChar (n : Nat) : Char :=
  Char.ofNat (48 + n % 10)

/-- Magnitude of a double in hundredths, rounded to the nearest integer, ties
to even, on the exact value (as `strconv` rounds). -/
def hundredths (x : Float64) : Nat :=
  roundHalfEven (scaleQuot (x.mant * 100) 1 (-x.exp)).1 (scaleQuot (x.mant * 100) 1 (-x.exp)).2

/-- Text of `fmt`'s verb `%.2f` for a finite double: a minus sign when the
sign bit is set, the integer part, a point, two decimals. -/
def fmtFloat2 (x : Float64) : String :=
  (if x.neg then "-" else "") ++ toString (hundredths x / 100) ++ "." ++
    String.mk [digitChar (hundredths x / 10), digitChar (hundredths x)]

/-- Text of `%.2f` applied to `Duration.Seconds()` (lines 74 and 77). -/
def fmtSeconds (d : Int) : String :=
  fmtFloat2 (Seconds d)

/-! ## Data model -/

/-- ServiceResult stores the result of a service availability check
(`Duration` in nanoseconds). -/
structure ServiceResult where
  Address : String
  Available : Bool
  Error : String
  Duration : Int
deriving DecidableEq

/-- One observable action of a `checkService` call. -/
inductive Effect where
  /-- The call `net.DialTimeout(network, address, timeout)` -/
  | dial (network address : String) (timeout : Int)
  /-- The call `conn.Close()` -/
  | connClose
  /-- The send `results <- r` -/
  | send (r : ServiceResult)
  /-- The deferred `wg.Done()` -/
  | wgDone
deriving DecidableEq

/-- What the world answers to one call of `checkService`: the error of
`net.DialTimeout` (`none` when the connection is established) and the reading
of `time.Since(startTime)` stored in the result. -/
structure CheckEnv where
  dialErr : Option String
  elapsed : Int

/-- The world outside the program: the answers to the `n`-th launched check. -/
structure Env where
  check : Nat → CheckEnv

/-! ## checkService -/

/-- Effects of `checkService(address, timeout, results, wg)`, in program
order; the deferred `wg.Done()` runs last on every path. -/
def checkService (address : String) (timeout : Int) (w : CheckEnv) : List Effect :=
  if !Contains address ":" then
    [.send { Address := address, Available := false,
             Error := "invalid address format (should be IP:port)",
             Duration := w.elapsed },
     .wgDone]
  else
    match w.dialErr with
    | some err =>
      [.dial "tcp" address timeout,
       .send { Address := address, Available := false, Error := err,
               Duration := w.elapsed },
       .wgDone]
    | none =>
      [.dial "tcp" address timeout,
       .connClose,
       .send { Address := address, Available := true, Error := "",
               Duration := w.elapsed },
       .wgDone]

/-- Results a sequence of effects sends on the channel, in order. -/
def sendsOf (p : List Effect) : List ServiceResult :=
  p.filterMap fun e => match e with
    | .send r => some r
    | _ => none

/-- Connect attempts of a sequence of effects: network, address, timeout. -/
def dialsOf (p : List Effect) : List (String × String × Int) :=
  p.filterMap fun e => match e with
    | .dial n a t => some (n, a, t)
    | _ => none

/-- Number of `wg.Done()` calls in a sequence of effects. -/
def donesOf (p : List Effect) : Nat :=
  p.count .wgDone

/-! ## main and the goroutines -/

/-- Where the main goroutine stands: in the launch loop, in the drain loop, or
after the process has ended. -/
inductive MainPc where
  | launching
  | draining
  | exited
deriving DecidableEq

/-- Where the goroutine `func() { wg.Wait(); close(results) }` stands. -/
inductive CloserPc where
  | notStarted
  | waiting
  | closing
  | returned
deriving DecidableEq

/-- State of the running program. -/
structure Sys where
  /-- The slice `serviceAddresses` -/
  serviceAddresses : List String
  /-- The variable `timeout` -/
  timeout : Int
  /-- Elements of `serviceAddresses` the launch loop has not visited yet -/
  pending : List String
  /-- Remaining effects of every launched `checkService` goroutine -/
  procs : List (List Effect)
  /-- Counter of the wait group -/
  wg : Nat
  /-- Capacity of the channel `results` -/
  cap : Nat
  /-- Buffer of the channel `results`, oldest first -/
  buf : List ServiceResult
  /-- Number of times `close(results)` has run -/
  closes : Nat
  closer : CloserPc
  mainPc : MainPc
  /-- The variable `unavailableCount` -/
  unavailableCount : Nat
  /-- Texts written to standard output, one per print call -/
  stdout : List String
  /-- Exit status of the process, once it has ended -/
  exitCode : Option Nat
  /-- Results the drain loop has received, in order -/
  received : List ServiceResult
  /-- Whether a goroutine has panicked -/
  panicked : Bool

/-- Threads of the program. -/
inductive Tid where
  | main
  | closer
  | worker (i : Nat)
deriving DecidableEq

/-- Lines 21-47 of `main`: with an empty `-services` flag the usage is printed
and the process exits with status 1; otherwise the list is split, the timeout
computed and the channel made. (`flag.PrintDefaults` writes to standard
error, which is not part of the state.) -/
def mainStart (servicesFlag : String) (timeoutFlag : Int) : Sys :=
  if servicesFlag = "" then
    { serviceAddresses := [], timeout := 0, pending := [], procs := [], wg := 0,
      cap := 0, buf := [], closes := 0, closer := .notStarted, mainPc := .exited,
      unavailableCount := 0,
      stdout := ["Error: No services specified\n",
                 "Usage: service-checker -services=IP1:port1,IP2:port2,...\n"],
      exitCode := some 1, received := [], panicked := false }
  else
    let serviceAddresses := Split servicesFlag ','
    { serviceAddresses := serviceAddresses,
      timeout := wrapInt64 (wrapInt64 timeoutFlag * Second),
      pending := serviceAddresses, procs := [], wg := 0,
      cap := serviceAddresses.length, buf := [], closes := 0,
      closer := .notStarted, mainPc := .launching, unavailableCount := 0,
      stdout := [], exitCode := none, received := [], panicked := false }

/-- Text printed for one drained result (lines 73-78). -/
def resultLine (result : ServiceResult) : String :=
  if result.Available then
    "✅ " ++ result.Address ++ " - Available (" ++ fmtSeconds result.Duration ++
      " seconds)\n"
  else
    "❌ " ++ result.Address ++ " - Unavailable: " ++ result.Error ++ " (" ++
      fmtSeconds result.Duration ++ " seconds)\n"

/-- Body of the drain loop `for result := range results` (lines 72-79). -/
def drainBody (s : Sys) (result : ServiceResult) : Sys :=
  if result.Available then
    { s with stdout := s.stdout ++ [resultLine result] }
  else
    { s with unavailableCount := s.unavailableCount + 1,
             stdout := s.stdout ++ [resultLine result] }

/-- Lines 81-88 of `main`: the summary and the exit status. -/
def mainFinish (s : Sys) : Sys :=
  { s with
    stdout := s.stdout ++
      ["==================================\n",
       "Summary: " ++ toString s.serviceAddresses.length ++ " services checked, " ++
         toString s.unavailableCount ++ " unavailable\n"],
    exitCode := if s.unavailableCount > 0 then some 1 else some 0,
    mainPc := .exited }

/-- A run-time panic ends the process with status 2. -/
def panic (s : Sys) : Sys :=
  { s with panicked := true, mainPc := .exited, exitCode := some 2 }

/-- One step of the main goroutine: one iteration of the launch loop (lines
50-58); or, at its end, the start of the closing goroutine and the two header
lines (lines 61-70); or one receive of the drain loop, which blocks on an empty
open channel and leaves the loop on an empty closed one. -/
def mainStep (env : Env) (s : Sys) : Option Sys :=
  match s.mainPc with
  | .launching =>
    match s.pending with
    | address :: rest =>
      let address := TrimSpace address
      if address = "" then
        some { s with pending := rest }
      else
        some { s with
          pending := rest,
          wg := s.wg + 1,
          procs := s.procs ++ [checkService address s.timeout (env.check s.procs.length)] }
    | [] =>
      some { s with
        closer := .waiting,
        mainPc := .draining,
        stdout := s.stdout ++
          ["Service Availability Check Results:\n",
           "==================================\n"] }
  | .draining =>
    match s.buf with
    | result :: rest =>
      some (drainBody { s with buf := rest, received := s.received ++ [result] } result)
    | [] => if s.closes > 0 then some (mainFinish s) else none
  | .exited => none

/-- One step of the closing goroutine: `wg.Wait()` returns once the counter is
zero, then `close(results)`, which panics on a closed channel. -/
def closerStep (s : Sys) : Option Sys :=
  match s.closer with
  | .notStarted => none
  | .waiting => if s.wg = 0 then some { s with closer := .closing } else none
  | .closing =>
    if s.closes > 0 then some (panic s)
    else some { s with closes := s.closes + 1, closer := .returned }
  | .returned => none

/-- One step of the `i`-th launched `checkService` goroutine: its next effect.
A send panics on a closed channel and blocks while the buffer is full;
`wg.Done()` panics on a zero counter. -/
def workerStep (s : Sys) (i : Nat) : Option Sys :=
  match s.procs[i]? with
  | none => none
  | some [] => none
  | some (e :: rest) =>
    match e with
    | .dial _ _ _ => some { s with procs := s.procs.set i rest }
    | .connClose => some { s with procs := s.procs.set i rest }
    | .send r =>
      if s.closes > 0 then some (panic s)
      else if s.buf.length < s.cap then
        some { s with procs := s.procs.set i rest, buf := s.buf ++ [r] }
      else none
    | .wgDone =>
      if s.wg = 0 then some (panic s)
      else some { s with procs := s.procs.set i rest, wg := s.wg - 1 }

/-- One step of thread `t`, or `none` when `t` cannot move (it is blocked, has
returned, was never launched, or the process has ended). -/
def step (env : Env) (s : Sys) (t : Tid) : Option Sys :=
  if s.mainPc = .exited then none
  else
    match t with
    | .main => mainStep env s
    | .closer => closerStep s
    | .worker i => workerStep s i

/-- State after the schedule `sched`: the picked threads move in turn, and a
thread that cannot move is passed over. -/
def exec (env : Env) (s : Sys) (sched : List Tid) : Sys :=
  sched.foldl (fun s t => (step env s t).getD s) s

/-- The run of the whole program under a schedule. -/
def run (env : Env) (servicesFlag : String) (timeoutFlag : Int) (sched : List Tid) : Sys :=
  exec env (mainStart servicesFlag timeoutFlag) sched

/-- Addresses the launch loop starts a check for: the trimmed elements that
are not empty, in order. -/
def launchedAddresses (tokens : List String) : List String :=
  (tokens.map TrimSpace).filter fun address => address ≠ ""

/-- Programs of the checks launched for the addresses `as`, the first of them
being the `k`-th launched check. -/
def programsFrom (env : Env) (timeout : Int) (k : Nat) : List String → List (List Effect)
  | [] => []
  | a :: as => checkService a timeout (env.check k) :: programsFrom env timeout (k + 1) as

/-- Environment in which every connect succeeds at once. -/
def envAllUp : Env :=
  { check := fun _ => { dialErr := none, elapsed := 0 } }

/-- Environment in which every connect is refused. -/
def envAllDown : Env :=
  { check := fun _ => { dialErr := some "connection refused", elapsed := 0 } }

/-- Environment in which every connect succeeds after 1.23456789 seconds. -/
def envTimed : Env :=
  { check := fun _ => { dialErr := none, elapsed := 1234567890 } }

/-! ## The invariant of the running program -/

/-- First two texts of the report (lines 69-70). -/
def reportHeader : List String :=
  ["Service Availability Check Results:\n", "==================================\n"]

/-- What holds in every state the program reaches from a non-empty `-services`
flag whose split is `all`, with timeout `T`. -/
structure Inv (env : Env) (all : List String) (T : Int) (s : Sys) : Prop where
  addrs : s.serviceAddresses = all
  tmo : s.timeout = T
  capEq : s.cap = all.length
  launch : ∃ pre, all = pre ++ s.pending ∧
    s.procs.length = (launchedAddresses pre).length ∧
    ((s.received ++ s.buf ++ s.procs.flatMap sendsOf : List ServiceResult) :
        Multiset ServiceResult) =
      ((programsFrom env T 0 (launchedAddresses pre)).flatMap sendsOf : List ServiceResult)
  wf : ∀ p ∈ s.procs, p = [] ∨ p.getLast? = some Effect.wgDone
  wgEq : s.wg = (s.procs.map donesOf).sum
  noPanic : s.panicked = false
  count : s.unavailableCount = s.received.countP fun r => !r.Available
  atLaunch : s.mainPc = .launching →
    s.closer = .notStarted ∧ s.received = [] ∧ s.stdout = [] ∧ s.exitCode = none
  afterLaunch : s.mainPc ≠ .launching → s.pending = [] ∧ s.closer ≠ .notStarted
  closerInv :
    (s.closer = .notStarted ∨ s.closer = .waiting → s.closes = 0) ∧
    (s.closer = .closing → s.closes = 0 ∧ s.wg = 0) ∧
    (s.closer = .returned → s.closes = 1 ∧ s.wg = 0)
  atDrain : s.mainPc = .draining →
    s.stdout = reportHeader ++ s.received.map resultLine ∧ s.exitCode = none
  atExit : s.mainPc = .exited →
    s.closes = 1 ∧ s.buf = [] ∧
    s.stdout = reportHeader ++ s.received.map resultLine ++
      ["==================================\n",
       "Summary: " ++ toString all.length ++ " services checked, " ++
         toString s.unavailableCount ++ " unavailable\n"] ∧
    s.exitCode = some (if s.unavailableCount > 0 then 1 else 0)

/-- Number of steps the program can still take, weighted so that every step
lowers it. -/
def measure (s : Sys) : Nat :=
  9 * s.pending.length + 2 * (s.procs.map List.length).sum + s.buf.length +
  (match s.closer with
    | .notStarted => 2
    | .waiting => 2
    | .closing => 1
    | .returned => 0) +
  (match s.mainPc with
    | .launching => 4
    | .draining => 1
    | .exited => 0)

/-! ## Sample schedules and a text helper -/

/-- A schedule that runs the program to its end on a flag of three elements:
the launch loop, the checks one after the other, the closing goroutine, the
drain loop. -/
def demoSchedule : List Tid :=
  [.main, .main, .main, .main,
   .worker 0, .worker 0, .worker 0, .worker 0,
   .worker 1, .worker 1, .worker 1, .worker 1,
   .worker 2, .worker 2, .worker 2, .worker 2,
   .closer, .closer, .main, .main, .main, .main]

/-- A schedule on a flag of three elements in which the checks run while the
launch loop is still going, the last launched check sending first. -/
def demoScheduleReversed : List Tid :=
  [.main, .worker 0, .main, .main,
   .worker 2, .worker 2, .worker 2, .worker 2,
   .worker 1, .worker 1, .worker 1, .worker 1,
   .main, .main,
   .worker 0, .worker 0, .worker 0,
   .closer, .closer, .main, .main, .main]

/-- Whether the text `s` begins with the text `p` (Go's `strings.HasPrefix`). -/
def startsWith (s p : String) : Bool :=
  p.data.isPrefixOf s.data

/-! ## Facts about the library functions -/

theorem containsChars_single (c : Char) (l : List Char) :
    containsChars l [c] = true ↔ c ∈ l := by
  induction l with
  | nil => simp [containsChars]
  | cons d ds ih =>
    simp only [containsChars, Bool.or_eq_true, ih, List.mem_cons, List.isPrefixOf,
      Bool.and_true, beq_iff_eq]

theorem contains_colon_iff (s : String) : Contains s ":" = true ↔ ':' ∈ s.data := by
  unfold Contains
  exact containsChars_single ':' s.data

theorem splitChars_ne_nil (sep : Char) (l : List Char) : splitChars sep l ≠ [] := by
  induction l with
  | nil => simp [splitChars]
  | cons c cs ih =>
    unfold splitChars
    split
    · simp
    · split <;> simp

theorem split_length_pos (s : String) (sep : Char) : 0 < (Split s sep).length := by
  unfold Split
  rw [List.length_map]
  exact List.length_pos.mpr (splitChars_ne_nil sep s.data)

theorem launchedAddresses_length_le (xs : List String) :
    (launchedAddresses xs).length ≤ xs.length := by
  unfold launchedAddresses
  exact (List.length_filter_le _ _).trans (by simp)

/-! ## Facts about the float model -/

theorem roundHalfEven_error (n d : Nat) (hd : 0 < d) :
    |(roundHalfEven n d : ℚ) - (n : ℚ) / d| ≤ 1 / 2 := by
  have hdq : (0 : ℚ) < d := by exact_mod_cast hd
  have hn : (n : ℚ) = (d : ℚ) * ((n / d : ℕ) : ℚ) + ((n % d : ℕ) : ℚ) := by
    exact_mod_cast (Nat.div_add_mod n d).symm
  have hr : n % d < d := Nat.mod_lt n hd
  have hrq : ((n % d : ℕ) : ℚ) < d := by exact_mod_cast hr
  have hr0 : (0 : ℚ) ≤ ((n % d : ℕ) : ℚ) := Nat.cast_nonneg _
  have hq : (n : ℚ) / d = ((n / d : ℕ) : ℚ) + ((n % d : ℕ) : ℚ) / d := by
    rw [hn]; field_simp; ring
  have down : 2 * (n % d) ≤ d → |((n / d : ℕ) : ℚ) - (n : ℚ) / d| ≤ 1 / 2 := by
    intro h
    have h' : 2 * ((n % d : ℕ) : ℚ) ≤ d := by exact_mod_cast h
    rw [hq, abs_le]
    constructor
    · have : ((n % d : ℕ) : ℚ) / d ≤ 1 / 2 := by
        rw [div_le_iff₀ hdq]; linarith
      linarith
    · have : 0 ≤ ((n % d : ℕ) : ℚ) / d := div_nonneg hr0 hdq.le
      linarith
  have up : d ≤ 2 * (n % d) → |((n / d + 1 : ℕ) : ℚ) - (n : ℚ) / d| ≤ 1 / 2 := by
    intro h
    have h' : (d : ℚ) ≤ 2 * ((n % d : ℕ) : ℚ) := by exact_mod_cast h
    rw [hq, abs_le]
    push_cast
    constructor
    · have : ((n % d : ℕ) : ℚ) / d ≤ 1 := by
        rw [div_le_iff₀ hdq]; linarith
      linarith
    · have : 1 / 2 ≤ ((n % d : ℕ) : ℚ) / d := by
        rw [le_div_iff₀ hdq]; linarith
      linarith
  unfold roundHalfEven
  split
  · exact down (by omega)
  · split
    · exact up (by omega)
    · split
      · exact down (by omega)
      · exact up (by omega)

theorem scaleQuot_pos (n d : Nat) (e : Int) (hd : 0 < d) : 0 < (scaleQuot n d e).2 := by
  unfold scaleQuot
  split
  · exact Nat.mul_pos hd (Nat.two_pow_pos _)
  · exact hd

theorem scaleQuot_value (n d : Nat) (e : Int) (hd : 0 < d) :
    ((scaleQuot n d e).1 : ℚ) / (scaleQuot n d e).2 = (n : ℚ) / d / (2 : ℚ) ^ e := by
  have hdq : (d : ℚ) ≠ 0 := by exact_mod_cast hd.ne'
  unfold scaleQuot
  split
  · rename_i he
    have : (2 : ℚ) ^ e = (2 : ℚ) ^ e.toNat := by
      rw [← zpow_natCast, Int.toNat_of_nonneg he]
    simp only [Nat.cast_mul, Nat.cast_pow, Nat.cast_ofNat, this]
    rw [div_div]
  · rename_i he
    have hneg : 0 ≤ -e := by omega
    have : (2 : ℚ) ^ e = ((2 : ℚ) ^ (-e).toNat)⁻¹ := by
      rw [← zpow_natCast, Int.toNat_of_nonneg hneg, zpow_neg, inv_inv]
    simp only [Nat.cast_mul, Nat.cast_pow, Nat.cast_ofNat, this]
    field_simp

theorem bitLen_spec (fuel n : Nat) (h : n ≤ fuel) :
    n < 2 ^ bitLen fuel n ∧ (n ≠ 0 → 2 ^ (bitLen fuel n - 1) ≤ n) := by
  induction fuel generalizing n with
  | zero =>
    have : n = 0 := by omega
    subst this
    simp [bitLen]
  | succ f ih =>
    unfold bitLen
    split
    · rename_i h0
      subst h0
      simp
    · rename_i h0
      have hle : n / 2 ≤ f := by omega
      obtain ⟨h1, h2⟩ := ih (n / 2) hle
      constructor
      · rw [pow_succ]; omega
      · intro _
        simp only [Nat.add_sub_cancel]
        by_cases hz : n / 2 = 0
        · have hb : bitLen f (n / 2) = 0 := by
            rw [hz]; cases f <;> simp [bitLen]
          rw [hb]; simp; omega
        · have h3 := h2 hz
          have hb : bitLen f (n / 2) ≠ 0 := by
            intro hb
            rw [hb] at h1
            simp at h1
            exact hz h1
          obtain ⟨b, hb'⟩ := Nat.exists_eq_succ_of_ne_zero hb
          rw [hb'] at h3 ⊢
          simp only [Nat.succ_sub_one] at h3
          rw [Nat.succ_eq_add_one, pow_succ]
          omega

theorem float64ExpRaw_lower (n d : Nat) (hn : 0 < n) (hd : 0 < d) :
    (2 : ℚ) ^ (52 + float64ExpRaw n d) ≤ (n : ℚ) / d := by
  have hdq : (0 : ℚ) < d := by exact_mod_cast hd
  unfold float64ExpRaw
  split
  · rename_i ht
    have hpos := scaleQuot_pos n d ((bitLen n n : Int) - (bitLen d d : Int) - 52) hd
    have hposq : (0 : ℚ) < (scaleQuot n d ((bitLen n n : Int) - (bitLen d d : Int) - 52)).2 := by
      exact_mod_cast hpos
    have hv := scaleQuot_value n d ((bitLen n n : Int) - (bitLen d d : Int) - 52) hd
    have ht2 : ((scaleQuot n d ((bitLen n n : Int) - (bitLen d d : Int) - 52)).2 : ℚ) * 2 ^ 52 ≤
        (scaleQuot n d ((bitLen n n : Int) - (bitLen d d : Int) - 52)).1 := by
      exact_mod_cast ht
    have h1 : (2 : ℚ) ^ 52 ≤
        (n : ℚ) / d / (2 : ℚ) ^ ((bitLen n n : Int) - (bitLen d d : Int) - 52) := by
      rw [← hv, le_div_iff₀ hposq]
      linarith
    have h2 : (0 : ℚ) < (2 : ℚ) ^ ((bitLen n n : Int) - (bitLen d d : Int) - 52) :=
      zpow_pos (by norm_num) _
    rw [le_div_iff₀ h2] at h1
    rw [zpow_add₀ (by norm_num)]
    exact_mod_cast h1
  · obtain ⟨_, hnl⟩ := bitLen_spec n n (le_refl n)
    obtain ⟨hdu, _⟩ := bitLen_spec d d (le_refl d)
    have hnl2 := hnl hn.ne'
    have hbn : bitLen n n ≠ 0 := by
      intro hb
      have := (bitLen_spec n n (le_refl n)).1
      rw [hb] at this
      omega
    obtain ⟨b, hb⟩ := Nat.exists_eq_succ_of_ne_zero hbn
    rw [hb] at hnl2 ⊢
    simp only [Nat.succ_sub_one] at hnl2
    have e1 : (52 : Int) + (((b.succ : ℕ) : Int) - (bitLen d d : Int) - 53) =
        (b : Int) - (bitLen d d : Int) := by
      push_cast; ring
    rw [e1, zpow_sub₀ (by norm_num), zpow_natCast, zpow_natCast]
    have hnq : (2 : ℚ) ^ b ≤ n := by exact_mod_cast hnl2
    have hdq2 : (d : ℚ) < (2 : ℚ) ^ bitLen d d := by exact_mod_cast hdu
    have h2pos : (0 : ℚ) < (2 : ℚ) ^ bitLen d d := by positivity
    rw [div_le_div_iff₀ h2pos hdq]
    have hb0 : (0 : ℚ) ≤ (2 : ℚ) ^ b := by positivity
    nlinarith

theorem float64Exp_le (n d : Nat) (hn : 0 < n) (hd : 0 < d) (B : Int) (hB : -1021 ≤ B)
    (h : (n : ℚ) / d < (2 : ℚ) ^ B) : float64Exp n d ≤ B - 53 := by
  have h1 := float64ExpRaw_lower n d hn hd
  have h2 := lt_of_le_of_lt h1 h
  rw [zpow_lt_zpow_iff_right₀ (by norm_num)] at h2
  unfold float64Exp
  omega

theorem roundFloat64_error (neg : Bool) (n d : Nat) (hd : 0 < d) (B : Int) (hB : -1021 ≤ B)
    (h : (n : ℚ) / d < (2 : ℚ) ^ B) :
    |(roundFloat64 neg n d).toRat - (if neg then -1 else 1) * ((n : ℚ) / d)| ≤
      (2 : ℚ) ^ (B - 54) := by
  unfold roundFloat64
  split
  · rename_i h0
    subst h0
    simp only [Float64.toRat, Nat.cast_zero, zero_div, mul_zero, zero_mul, sub_zero, abs_zero]
    positivity
  · rename_i h0
    have hn : 0 < n := Nat.pos_of_ne_zero h0
    have he := float64Exp_le n d hn hd B hB h
    have hpos := scaleQuot_pos n d (float64Exp n d) hd
    have hr := roundHalfEven_error (scaleQuot n d (float64Exp n d)).1
      (scaleQuot n d (float64Exp n d)).2 hpos
    rw [scaleQuot_value n d _ hd] at hr
    have h2 : (0 : ℚ) < (2 : ℚ) ^ float64Exp n d := zpow_pos (by norm_num) _
    simp only [Float64.toRat]
    have key : |(↑(roundHalfEven (scaleQuot n d (float64Exp n d)).1
          (scaleQuot n d (float64Exp n d)).2) : ℚ) * (2 : ℚ) ^ float64Exp n d - (n : ℚ) / d| ≤
        (2 : ℚ) ^ (float64Exp n d) / 2 := by
      have := mul_le_mul_of_nonneg_right hr h2.le
      rw [← abs_of_pos h2, ← abs_mul, abs_of_pos h2, sub_mul, div_mul_cancel₀ _ h2.ne'] at this
      linarith
    have hexp : (2 : ℚ) ^ (float64Exp n d) / 2 ≤ (2 : ℚ) ^ (B - 54) := by
      have : (2 : ℚ) ^ (float64Exp n d) / 2 = (2 : ℚ) ^ (float64Exp n d - 1) := by
        rw [zpow_sub₀ (by norm_num), zpow_one]
      rw [this]
      exact zpow_le_zpow_right₀ (by norm_num) (by omega)
    refine le_trans ?_ hexp
    cases neg
    · simpa using key
    · simp only [if_true]
      have e : (-1 : ℚ) * ↑(roundHalfEven (scaleQuot n d (float64Exp n d)).1
            (scaleQuot n d (float64Exp n d)).2) * (2 : ℚ) ^ float64Exp n d - -1 * ((n : ℚ) / d) =
          -(↑(roundHalfEven (scaleQuot n d (float64Exp n d)).1
            (scaleQuot n d (float64Exp n d)).2) * (2 : ℚ) ^ float64Exp n d - (n : ℚ) / d) := by
        ring
      rw [e, abs_neg]
      exact key

theorem roundHalfEven_one (a : Nat) : roundHalfEven a 1 = a := by
  simp [roundHalfEven, Nat.mod_one]

theorem scaleQuot_den_one (n : Nat) (e : Int) (he : e ≤ 0) : (scaleQuot n 1 e).2 = 1 := by
  unfold scaleQuot
  split
  · rename_i h0
    have : e = 0 := by omega
    subst this
    simp
  · rfl

theorem natAbs_cast_abs (s : Int) : ((s.natAbs : ℕ) : ℚ) = |(s : ℚ)| := by
  rw [Nat.cast_natAbs, Int.cast_abs]

theorem signed_natAbs_cast (s : Int) :
    (if decide (s < 0) = true then (-1 : ℚ) else 1) * ((s.natAbs : ℕ) : ℚ) = (s : ℚ) := by
  rw [natAbs_cast_abs]
  by_cases h : s < 0
  · have hq : (s : ℚ) < 0 := by exact_mod_cast h
    simp only [h, decide_True, if_true, abs_of_neg hq]
    ring
  · have hq : (0 : ℚ) ≤ (s : ℚ) := by exact_mod_cast (not_lt.mp h)
    simp only [h, decide_False, Bool.false_eq_true, if_false, abs_of_nonneg hq]
    ring

/-- Conversion of an integer below `2^53` in magnitude is exact. -/
theorem float64OfInt_exact (i : Int) (h : |(i : ℚ)| < 2 ^ 53) : (float64OfInt i).toRat = i := by
  unfold float64OfInt roundFloat64
  split
  · rename_i h0
    have : i = 0 := Int.natAbs_eq_zero.mp h0
    subst this
    simp [Float64.toRat]
  · rename_i h0
    have hn : 0 < i.natAbs := Nat.pos_of_ne_zero h0
    have hlt : ((i.natAbs : ℕ) : ℚ) / ((1 : ℕ) : ℚ) < (2 : ℚ) ^ (53 : Int) := by
      have e53 : (2 : ℚ) ^ (53 : Int) = 2 ^ 53 := by norm_num
      rw [natAbs_cast_abs, e53, Nat.cast_one, div_one]
      exact h
    have he := float64Exp_le i.natAbs 1 hn Nat.one_pos 53 (by norm_num) hlt
    have he0 : float64Exp i.natAbs 1 ≤ 0 := by omega
    have hden := scaleQuot_den_one i.natAbs (float64Exp i.natAbs 1) he0
    have hv := scaleQuot_value i.natAbs 1 (float64Exp i.natAbs 1) Nat.one_pos
    rw [hden] at hv
    have h2 : (0 : ℚ) < (2 : ℚ) ^ float64Exp i.natAbs 1 := zpow_pos (by norm_num) _
    simp only [Float64.toRat, hden, roundHalfEven_one]
    simp only [Nat.cast_one, div_one] at hv
    rw [mul_assoc, hv, div_mul_cancel₀ _ h2.ne']
    exact signed_natAbs_cast i

theorem Float64.toRat_abs (x : Float64) : |x.toRat| = (x.mant : ℚ) * (2 : ℚ) ^ x.exp := by
  have h2 : (0 : ℚ) < (2 : ℚ) ^ x.exp := zpow_pos (by norm_num) _
  have hm : (0 : ℚ) ≤ (x.mant : ℚ) := Nat.cast_nonneg _
  unfold Float64.toRat
  cases x.neg
  · simp only [Bool.false_eq_true, if_false, one_mul]
    exact abs_of_nonneg (mul_nonneg hm h2.le)
  · simp only [if_true]
    rw [mul_assoc, abs_mul]
    simp only [abs_neg, abs_one, one_mul]
    exact abs_of_nonneg (mul_nonneg hm h2.le)

theorem Float64.toRat_sign (x : Float64) :
    x.toRat = (if x.neg then -1 else 1) * |x.toRat| := by
  rw [Float64.toRat_abs]
  unfold Float64.toRat
  ring

/-- The quotient of two doubles is within half a unit in the last place of
the exact quotient. -/
theorem float64Div_error (x y : Float64) (hy : 0 < y.mant) (B : Int) (hB : -1021 ≤ B)
    (h : |x.toRat / y.toRat| < (2 : ℚ) ^ B) :
    |(float64Div x y).toRat - x.toRat / y.toRat| ≤ (2 : ℚ) ^ (B - 54) := by
  have hv := scaleQuot_value x.mant y.mant (y.exp - x.exp) hy
  have hymq : (0 : ℚ) < (y.mant : ℚ) := by exact_mod_cast hy
  have h2x : (0 : ℚ) < (2 : ℚ) ^ x.exp := zpow_pos (by norm_num) _
  have h2y : (0 : ℚ) < (2 : ℚ) ^ y.exp := zpow_pos (by norm_num) _
  have hq : ((scaleQuot x.mant y.mant (y.exp - x.exp)).1 : ℚ) /
      (scaleQuot x.mant y.mant (y.exp - x.exp)).2 = |x.toRat / y.toRat| := by
    rw [hv, abs_div, Float64.toRat_abs, Float64.toRat_abs, zpow_sub₀ (by norm_num)]
    field_simp
  have hpos := scaleQuot_pos x.mant y.mant (y.exp - x.exp) hy
  have herr := roundFloat64_error (xor x.neg y.neg) _ _ hpos B hB (by rw [hq]; exact h)
  rw [hq] at herr
  have hsign : (if (xor x.neg y.neg) = true then (-1 : ℚ) else 1) * |x.toRat / y.toRat| =
      x.toRat / y.toRat := by
    rw [abs_div]
    conv_rhs => rw [Float64.toRat_sign x, Float64.toRat_sign y]
    have hyabs : |y.toRat| ≠ 0 := by
      rw [Float64.toRat_abs]
      exact (mul_pos hymq h2y).ne'
    cases x.neg <;> cases y.neg <;> simp [neg_div, div_neg]
  rw [hsign] at herr
  exact herr

theorem Float64.toRat_signed (x : Float64) :
    x.toRat = (signedMant x : ℚ) * (2 : ℚ) ^ x.exp := by
  unfold Float64.toRat signedMant
  cases x.neg <;> simp

/-- The sum of two doubles is within half a unit in the last place of the
exact sum. -/
theorem float64Add_error (x y : Float64) (B : Int) (hB : -1021 ≤ B)
    (h : |x.toRat + y.toRat| < (2 : ℚ) ^ B) :
    |(float64Add x y).toRat - (x.toRat + y.toRat)| ≤ (2 : ℚ) ^ (B - 54) := by
  have h2 : ∀ k : Int, (0 : ℚ) < (2 : ℚ) ^ k := fun k => zpow_pos (by norm_num) _
  have hsum : ((signedMant x * 2 ^ (x.exp - min x.exp y.exp).toNat +
      signedMant y * 2 ^ (y.exp - min x.exp y.exp).toNat : Int) : ℚ) *
        (2 : ℚ) ^ (min x.exp y.exp) = x.toRat + y.toRat := by
    have hx : (0 : Int) ≤ x.exp - min x.exp y.exp := by omega
    have hy : (0 : Int) ≤ y.exp - min x.exp y.exp := by omega
    have px : ((2 : ℚ) ^ (x.exp - min x.exp y.exp).toNat) = (2 : ℚ) ^ (x.exp - min x.exp y.exp) := by
      rw [← zpow_natCast, Int.toNat_of_nonneg hx]
    have py : ((2 : ℚ) ^ (y.exp - min x.exp y.exp).toNat) = (2 : ℚ) ^ (y.exp - min x.exp y.exp) := by
      rw [← zpow_natCast, Int.toNat_of_nonneg hy]
    push_cast
    rw [px, py, Float64.toRat_signed x, Float64.toRat_signed y, add_mul, mul_assoc, mul_assoc,
      ← zpow_add₀ (by norm_num), ← zpow_add₀ (by norm_num)]
    simp
  generalize hs : (signedMant x * 2 ^ (x.exp - min x.exp y.exp).toNat +
      signedMant y * 2 ^ (y.exp - min x.exp y.exp).toNat : Int) = s at hsum
  have hv := scaleQuot_value s.natAbs 1 (-(min x.exp y.exp)) Nat.one_pos
  have hq : ((scaleQuot s.natAbs 1 (-(min x.exp y.exp))).1 : ℚ) /
      (scaleQuot s.natAbs 1 (-(min x.exp y.exp))).2 = |x.toRat + y.toRat| := by
    rw [hv, ← hsum, abs_mul, abs_of_pos (h2 _), natAbs_cast_abs, zpow_neg]
    simp
  have hpos := scaleQuot_pos s.natAbs 1 (-(min x.exp y.exp)) Nat.one_pos
  have herr := roundFloat64_error (decide (s < 0)) _ _ hpos B hB (by rw [hq]; exact h)
  rw [hq] at herr
  have hsign : (if decide (s < 0) = true then (-1 : ℚ) else 1) * |x.toRat + y.toRat| =
      x.toRat + y.toRat := by
    rw [← hsum, abs_mul, abs_of_pos (h2 _), ← natAbs_cast_abs, ← mul_assoc, signed_natAbs_cast]
  rw [hsign] at herr
  unfold float64Add
  simp only [hs]
  exact herr

theorem tdiv_tmod_second (d : Int) :
    1000000000 * d.tdiv 1000000000 + d.tmod 1000000000 = d ∧
    -1000000000 < d.tmod 1000000000 ∧ d.tmod 1000000000 < 1000000000 ∧
    (-9223372036854775808 ≤ d → d < 9223372036854775808 →
      -9223372036 ≤ d.tdiv 1000000000 ∧ d.tdiv 1000000000 ≤ 9223372036) := by
  have hdef := Int.tmod_def d 1000000000
  by_cases h : 0 ≤ d
  · have h1 : d.tdiv 1000000000 = d / 1000000000 := Int.tdiv_eq_ediv h (by norm_num)
    rw [hdef, h1]
    omega
  · have h1 : d.tdiv 1000000000 = -((-d) / 1000000000) := by
      have h2 : (-d).tdiv 1000000000 = (-d) / 1000000000 :=
        Int.tdiv_eq_ediv (by omega) (by norm_num)
      rw [← h2, Int.neg_tdiv, neg_neg]
    rw [hdef, h1]
    omega

/-- The double computed by `Duration.Seconds()` is within `2^-20 + 2^-54` of
the duration divided by `10^9`. -/
theorem Seconds_error (d : Int) (hlo : -9223372036854775808 ≤ d)
    (hhi : d < 9223372036854775808) :
    |(Seconds d).toRat - (d : ℚ) / 1000000000| ≤ (2 : ℚ) ^ (-20 : Int) + (2 : ℚ) ^ (-54 : Int) := by
  obtain ⟨hsum, hn1, hn2, hsec⟩ := tdiv_tmod_second d
  obtain ⟨hs1, hs2⟩ := hsec hlo hhi
  unfold Seconds Second
  generalize d.tdiv 1000000000 = sec at hsum hs1 hs2 ⊢
  generalize d.tmod 1000000000 = nsec at hsum hn1 hn2 ⊢
  have hsq1 : (-9223372036 : ℚ) ≤ sec := by exact_mod_cast hs1
  have hsq2 : (sec : ℚ) ≤ 9223372036 := by exact_mod_cast hs2
  have hnq1 : (-1000000000 : ℚ) < nsec := by exact_mod_cast hn1
  have hnq2 : (nsec : ℚ) < 1000000000 := by exact_mod_cast hn2
  have hS : (float64OfInt sec).toRat = sec :=
    float64OfInt_exact sec (by rw [abs_lt]; constructor <;> norm_num <;> linarith)
  have hN : (float64OfInt nsec).toRat = nsec :=
    float64OfInt_exact nsec (by rw [abs_lt]; constructor <;> norm_num <;> linarith)
  have hY : (float64OfInt 1000000000).toRat = 1000000000 := by
    have := float64OfInt_exact 1000000000 (by norm_num)
    simpa using this
  have hYm : 0 < (float64OfInt 1000000000).mant := by decide
  have hquot : |(nsec : ℚ) / 1000000000| < 1 := by
    rw [abs_lt]
    constructor
    · rw [lt_div_iff₀ (by norm_num)]; linarith
    · rw [div_lt_iff₀ (by norm_num)]; linarith
  have hQ := float64Div_error (float64OfInt nsec) (float64OfInt 1000000000) hYm 0 (by norm_num)
    (by rw [hN, hY]; simpa using hquot)
  rw [hN, hY] at hQ
  have hQabs := abs_le.mp hQ
  have hsmall : (2 : ℚ) ^ ((0 : Int) - 54) ≤ 1 := by norm_num
  have hquot2 := abs_lt.mp hquot
  have hX := float64Add_error (float64OfInt sec) (float64Div (float64OfInt nsec) (float64OfInt 1000000000)) 34 (by norm_num)
    (by
      rw [hS, abs_lt]
      have e34 : (2 : ℚ) ^ (34 : Int) = 17179869184 := by norm_num
      rw [e34]
      constructor <;> linarith [hQabs.1, hQabs.2])
  rw [hS] at hX
  have hd : (d : ℚ) / 1000000000 = sec + (nsec : ℚ) / 1000000000 := by
    have : (d : ℚ) = 1000000000 * sec + nsec := by exact_mod_cast hsum.symm
    rw [this]; field_simp; ring
  have e1 : (2 : ℚ) ^ ((34 : Int) - 54) = (2 : ℚ) ^ (-20 : Int) := by norm_num
  have e2 : (2 : ℚ) ^ ((0 : Int) - 54) = (2 : ℚ) ^ (-54 : Int) := by norm_num
  rw [e1] at hX
  rw [e2] at hQ
  rw [hd]
  have tri := abs_add
    ((float64Add (float64OfInt sec) (float64Div (float64OfInt nsec) (float64OfInt 1000000000))).toRat -
      ((sec : ℚ) + (float64Div (float64OfInt nsec) (float64OfInt 1000000000)).toRat))
    ((float64Div (float64OfInt nsec) (float64OfInt 1000000000)).toRat - (nsec : ℚ) / 1000000000)
  have e3 : (float64Add (float64OfInt sec) (float64Div (float64OfInt nsec) (float64OfInt 1000000000))).toRat -
      ((sec : ℚ) + (float64Div (float64OfInt nsec) (float64OfInt 1000000000)).toRat) +
      ((float64Div (float64OfInt nsec) (float64OfInt 1000000000)).toRat - (nsec : ℚ) / 1000000000) =
      (float64Add (float64OfInt sec) (float64Div (float64OfInt nsec) (float64OfInt 1000000000))).toRat -
      ((sec : ℚ) + (nsec : ℚ) / 1000000000) := by ring
  rw [e3] at tri
  exact le_trans tri (add_le_add hX hQ)

/-- The number of hundredths printed is the nearest integer to a hundred
times the magnitude of the double. -/
theorem hundredths_error (x : Float64) :
    |(hundredths x : ℚ) - |x.toRat| * 100| ≤ 1 / 2 := by
  have hpos := scaleQuot_pos (x.mant * 100) 1 (-x.exp) Nat.one_pos
  have hr := roundHalfEven_error (scaleQuot (x.mant * 100) 1 (-x.exp)).1
    (scaleQuot (x.mant * 100) 1 (-x.exp)).2 hpos
  rw [scaleQuot_value _ 1 _ Nat.one_pos] at hr
  have e : ((x.mant * 100 : ℕ) : ℚ) / ((1 : ℕ) : ℚ) / (2 : ℚ) ^ (-x.exp) = |x.toRat| * 100 := by
    rw [Float64.toRat_abs, zpow_neg]
    push_cast
    field_simp
    ring
  rw [e] at hr
  exact hr

/-- The text of `%.2f` is a sign, the integer part, a point and two digits. -/
theorem fmtFloat2_shape (x : Float64) :
    fmtFloat2 x = (if x.neg then "-" else "") ++ toString (hundredths x / 100) ++ "." ++
      String.mk [Char.ofNat (48 + hundredths x / 10 % 10), Char.ofNat (48 + hundredths x % 10)] ∧
    (hundredths x : ℚ) =
      ((hundredths x / 100 : ℕ) : ℚ) * 100 + ((hundredths x / 10 % 10 : ℕ) : ℚ) * 10 +
        ((hundredths x % 10 : ℕ) : ℚ) := by
  refine ⟨rfl, ?_⟩
  have : hundredths x = hundredths x / 100 * 100 + hundredths x / 10 % 10 * 10 +
      hundredths x % 10 := by omega
  exact_mod_cast this

/-- The duration is printed in seconds with two decimal places: the text is a
sign, an integer part, a point and two digits, and the number it writes is
within half a hundredth (and the rounding of the double, below `2^-19`) of the
duration in nanoseconds divided by `10^9`. -/
theorem fmtSeconds_two_decimals (d : Int) (hlo : -9223372036854775808 ≤ d)
    (hhi : d < 9223372036854775808) :
    ∃ (neg : Bool) (ip c1 c2 : Nat), c1 < 10 ∧ c2 < 10 ∧
      fmtFloat2 (Seconds d) = (if neg then "-" else "") ++ toString ip ++ "." ++
        String.mk [Char.ofNat (48 + c1), Char.ofNat (48 + c2)] ∧
      |(if neg then (-1 : ℚ) else 1) * ((ip : ℚ) + (c1 : ℚ) / 10 + (c2 : ℚ) / 100) -
          (d : ℚ) / 1000000000| ≤ 1 / 200 + 1 / 2 ^ 19 := by
  obtain ⟨hshape, hval⟩ := fmtFloat2_shape (Seconds d)
  refine ⟨(Seconds d).neg, hundredths (Seconds d) / 100, hundredths (Seconds d) / 10 % 10,
    hundredths (Seconds d) % 10, Nat.mod_lt _ (by norm_num), Nat.mod_lt _ (by norm_num),
    hshape, ?_⟩
  have herr := Seconds_error d hlo hhi
  have hh := hundredths_error (Seconds d)
  have hsign := Float64.toRat_sign (Seconds d)
  have hnum : ((hundredths (Seconds d) / 100 : ℕ) : ℚ) +
      ((hundredths (Seconds d) / 10 % 10 : ℕ) : ℚ) / 10 +
      ((hundredths (Seconds d) % 10 : ℕ) : ℚ) / 100 = (hundredths (Seconds d) : ℚ) / 100 := by
    rw [hval]; ring
  rw [hnum]
  have hh2 : |(hundredths (Seconds d) : ℚ) / 100 - abs (Seconds d).toRat| ≤ 1 / 200 := by
    have e : (hundredths (Seconds d) : ℚ) / 100 - |(Seconds d).toRat| =
        ((hundredths (Seconds d) : ℚ) - |(Seconds d).toRat| * 100) / 100 := by ring
    rw [e, abs_div, abs_of_pos (by norm_num : (0 : ℚ) < 100), div_le_iff₀ (by norm_num)]
    linarith
  have hs2 : |(if (Seconds d).neg = true then (-1 : ℚ) else 1) *
      ((hundredths (Seconds d) : ℚ) / 100) - (Seconds d).toRat| ≤ 1 / 200 := by
    conv_lhs => rw [hsign]
    rw [← mul_sub, abs_mul]
    have : |(if (Seconds d).neg = true then (-1 : ℚ) else 1)| = 1 := by
      cases (Seconds d).neg <;> simp
    rw [this, one_mul]
    exact hh2
  have hnumeric : (2 : ℚ) ^ (-20 : Int) + (2 : ℚ) ^ (-54 : Int) ≤ 1 / 2 ^ 19 := by norm_num
  have tri := abs_add
    ((if (Seconds d).neg = true then (-1 : ℚ) else 1) *
      ((hundredths (Seconds d) : ℚ) / 100) - (Seconds d).toRat)
    ((Seconds d).toRat - (d : ℚ) / 1000000000)
  rw [sub_add_sub_cancel] at tri
  linarith

/-- Values of `%.2f` of `Duration.Seconds()` at sample durations, ties and
near-ties included: 0.125 is a tie and goes to the even hundredth, the doubles
nearest to 1.005 and 0.005 lie below and above them. -/
theorem fmtSeconds_samples :
    fmtSeconds 0 = "0.00" ∧ fmtSeconds 1234567890 = "1.23" ∧ fmtSeconds 125000000 = "0.12" ∧
    fmtSeconds 1005000000 = "1.00" ∧ fmtSeconds 5000000 = "0.01" ∧
    fmtSeconds 2000000000 = "2.00" ∧ fmtSeconds 999999999 = "1.00" ∧
    fmtSeconds (-1500000000) = "-1.50" ∧
    fmtSeconds 9223372036854775807 = "9223372036.85" := by
  decide

/-! ## Facts about checkService -/

theorem checkService_sends (a : String) (t : Int) (w : CheckEnv) :
    sendsOf (checkService a t w) =
      [{ Address := a, Available := Contains a ":" && w.dialErr.isNone,
         Error := if Contains a ":" then w.dialErr.getD ""
                  else "invalid address format (should be IP:port)",
         Duration := w.elapsed }] := by
  unfold checkService
  cases hc : Contains a ":" <;> cases hd : w.dialErr <;> simp [sendsOf]

theorem checkService_sends_length (a : String) (t : Int) (w : CheckEnv) :
    (sendsOf (checkService a t w)).length = 1 := by
  rw [checkService_sends]; rfl

theorem checkService_dones (a : String) (t : Int) (w : CheckEnv) :
    donesOf (checkService a t w) = 1 := by
  unfold checkService
  cases hc : Contains a ":" <;> cases hd : w.dialErr <;> simp [donesOf]

theorem checkService_last (a : String) (t : Int) (w : CheckEnv) :
    (checkService a t w).getLast? = some Effect.wgDone := by
  unfold checkService
  cases hc : Contains a ":" <;> cases hd : w.dialErr <;> simp

theorem checkService_length_le (a : String) (t : Int) (w : CheckEnv) :
    (checkService a t w).length ≤ 4 := by
  unfold checkService
  cases hc : Contains a ":" <;> cases hd : w.dialErr <;> simp

theorem programsFrom_append (env : Env) (T : Int) (k : Nat) (xs ys : List String) :
    programsFrom env T k (xs ++ ys) =
      programsFrom env T k xs ++ programsFrom env T (k + xs.length) ys := by
  induction xs generalizing k with
  | nil => simp [programsFrom]
  | cons x xs ih =>
    have h : k + 1 + xs.length = k + (xs.length + 1) := by omega
    show checkService x T (env.check k) :: programsFrom env T (k + 1) (xs ++ ys) = _
    rw [ih (k + 1), h]
    rfl

theorem programsFrom_sends_length (env : Env) (T : Int) (k : Nat) (xs : List String) :
    ((programsFrom env T k xs).flatMap sendsOf).length = xs.length := by
  induction xs generalizing k with
  | nil => rfl
  | cons x xs ih =>
    simp [programsFrom, List.flatMap_cons, ih, checkService_sends_length, Nat.add_comm]

/-! ## Preservation of the invariant -/

theorem getElem?_decompose {α : Type} (l : List α) (i : Nat) (a : α) (h : l[i]? = some a) :
    ∃ pre post, l = pre ++ a :: post ∧ ∀ b, l.set i b = pre ++ b :: post := by
  induction l generalizing i with
  | nil => simp at h
  | cons x xs ih =>
    cases i with
    | zero =>
      simp only [List.getElem?_cons_zero, Option.some.injEq] at h
      exact ⟨[], xs, by simp [h], fun b => by simp⟩
    | succ j =>
      simp only [List.getElem?_cons_succ] at h
      obtain ⟨pre, post, h1, h2⟩ := ih j h
      exact ⟨x :: pre, post, by simp [h1], fun b => by simp [h2]⟩

theorem wf_tail (e : Effect) (rest : List Effect)
    (h : e :: rest = [] ∨ (e :: rest).getLast? = some Effect.wgDone) :
    rest = [] ∨ rest.getLast? = some Effect.wgDone := by
  cases rest with
  | nil => exact Or.inl rfl
  | cons b l =>
    right
    rcases h with h | h
    · simp at h
    · rwa [List.getLast?_cons_cons] at h

theorem wf_dones_pos (p : List Effect) (hne : p ≠ [])
    (h : p = [] ∨ p.getLast? = some Effect.wgDone) : 0 < donesOf p := by
  rcases h with h | h
  · exact absurd h hne
  · exact List.count_pos_iff.mpr (List.mem_of_getLast?_eq_some h)

theorem Inv.wg_pos {env : Env} {all : List String} {T : Int} {s : Sys}
    (h : Inv env all T s) {p : List Effect} (hp : p ∈ s.procs) (hne : p ≠ []) : 0 < s.wg := by
  have h1 := wf_dones_pos p hne (h.wf p hp)
  obtain ⟨pre, post, hpp⟩ := List.append_of_mem hp
  rw [h.wgEq, hpp]
  simp only [List.map_append, List.map_cons, List.sum_append, List.sum_cons]
  omega

theorem Inv.count_le {env : Env} {all : List String} {T : Int} {s : Sys}
    (h : Inv env all T s) :
    s.received.length + s.buf.length + (s.procs.flatMap sendsOf).length + s.pending.length
      ≤ s.cap := by
  obtain ⟨pre, h1, _, h3⟩ := h.launch
  have h4 := congrArg Multiset.card h3
  simp only [Multiset.coe_card, List.length_append, programsFrom_sends_length] at h4
  have h5 := launchedAddresses_length_le pre
  have h6 := congrArg List.length h1
  rw [List.length_append] at h6
  rw [h.capEq]
  omega

theorem Inv.closes_le {env : Env} {all : List String} {T : Int} {s : Sys}
    (h : Inv env all T s) : s.closes ≤ 1 ∧ (0 < s.closes → s.closer = .returned) := by
  obtain ⟨h1, h2, h3⟩ := h.closerInv
  cases hc : s.closer <;> simp_all

theorem sendsOf_cons_send (r : ServiceResult) (rest : List Effect) :
    sendsOf (Effect.send r :: rest) = r :: sendsOf rest := by
  simp [sendsOf]

theorem sendsOf_cons_dial (n a : String) (t : Int) (rest : List Effect) :
    sendsOf (Effect.dial n a t :: rest) = sendsOf rest := by
  simp [sendsOf]

theorem sendsOf_cons_connClose (rest : List Effect) :
    sendsOf (Effect.connClose :: rest) = sendsOf rest := by
  simp [sendsOf]

theorem sendsOf_cons_wgDone (rest : List Effect) :
    sendsOf (Effect.wgDone :: rest) = sendsOf rest := by
  simp [sendsOf]

theorem donesOf_cons_send (r : ServiceResult) (rest : List Effect) :
    donesOf (Effect.send r :: rest) = donesOf rest := by
  simp [donesOf, List.count_cons]

theorem donesOf_cons_dial (n a : String) (t : Int) (rest : List Effect) :
    donesOf (Effect.dial n a t :: rest) = donesOf rest := by
  simp [donesOf, List.count_cons]

theorem donesOf_cons_connClose (rest : List Effect) :
    donesOf (Effect.connClose :: rest) = donesOf rest := by
  simp [donesOf, List.count_cons]

theorem donesOf_cons_wgDone (rest : List Effect) :
    donesOf (Effect.wgDone :: rest) = donesOf rest + 1 := by
  simp [donesOf, List.count_cons]

/-- A step of a check that neither sends nor calls `wg.Done()` keeps the
invariant. -/
theorem inv_silent {env : Env} {all : List String} {T : Int} {s : Sys}
    (h : Inv env all T s) (pre post : List (List Effect)) (e : Effect) (rest : List Effect)
    (hp : s.procs = pre ++ (e :: rest) :: post)
    (hs : sendsOf (e :: rest) = sendsOf rest) (hd : donesOf (e :: rest) = donesOf rest) :
    Inv env all T { s with procs := pre ++ rest :: post } := by
  have hl := h.launch
  have hw := h.wf
  have hg := h.wgEq
  rw [hp] at hl hw hg
  refine { h with launch := ?_, wf := ?_, wgEq := ?_ }
  · obtain ⟨q, h1, h2, h3⟩ := hl
    refine ⟨q, h1, ?_, ?_⟩
    · simpa using h2
    · rw [← h3]
      simp [List.flatMap_append, List.flatMap_cons, hs]
  · intro p hpm
    simp only [List.mem_append, List.mem_cons] at hpm
    rcases hpm with hpm | hpm | hpm
    · exact hw p (by simp [hpm])
    · subst hpm
      exact wf_tail e p (hw (e :: p) (by simp))
    · exact hw p (by simp [hpm])
  · simp only [hg, List.map_append, List.map_cons, hd]

/-- The send of a check keeps the invariant. -/
theorem inv_send {env : Env} {all : List String} {T : Int} {s : Sys}
    (h : Inv env all T s) (hne : s.mainPc ≠ .exited)
    (pre post : List (List Effect)) (r : ServiceResult) (rest : List Effect)
    (hp : s.procs = pre ++ (Effect.send r :: rest) :: post) :
    Inv env all T { s with procs := pre ++ rest :: post, buf := s.buf ++ [r] } := by
  have hl := h.launch
  have hw := h.wf
  have hg := h.wgEq
  rw [hp] at hl hw hg
  refine { h with launch := ?_, wf := ?_, wgEq := ?_, atExit := ?_ }
  · obtain ⟨q, h1, h2, h3⟩ := hl
    refine ⟨q, h1, ?_, ?_⟩
    · simpa using h2
    · rw [← h3]
      simp only [List.flatMap_append, List.flatMap_cons, sendsOf_cons_send, ← Multiset.coe_add,
        ← Multiset.cons_coe, ← Multiset.singleton_add, Multiset.coe_nil, add_zero]
      abel
  · intro p hpm
    simp only [List.mem_append, List.mem_cons] at hpm
    rcases hpm with hpm | hpm | hpm
    · exact hw p (by simp [hpm])
    · subst hpm
      exact wf_tail _ p (hw (Effect.send r :: p) (by simp))
    · exact hw p (by simp [hpm])
  · simp only [hg, List.map_append, List.map_cons, donesOf_cons_send]
  · intro hx
    exact absurd hx hne

/-- The `wg.Done()` of a check keeps the invariant. -/
theorem inv_done {env : Env} {all : List String} {T : Int} {s : Sys}
    (h : Inv env all T s)
    (pre post : List (List Effect)) (rest : List Effect)
    (hp : s.procs = pre ++ (Effect.wgDone :: rest) :: post) :
    Inv env all T { s with procs := pre ++ rest :: post, wg := s.wg - 1 } := by
  have hl := h.launch
  have hw := h.wf
  have hg := h.wgEq
  have hpos : 0 < s.wg := h.wg_pos (p := Effect.wgDone :: rest) (by simp [hp]) (by simp)
  have hc := h.closerInv
  rw [hp] at hl hw hg
  refine { h with launch := ?_, wf := ?_, wgEq := ?_, closerInv := ?_ }
  · obtain ⟨q, h1, h2, h3⟩ := hl
    refine ⟨q, h1, ?_, ?_⟩
    · simpa using h2
    · rw [← h3]
      simp [List.flatMap_append, List.flatMap_cons, sendsOf_cons_wgDone]
  · intro p hpm
    simp only [List.mem_append, List.mem_cons] at hpm
    rcases hpm with hpm | hpm | hpm
    · exact hw p (by simp [hpm])
    · subst hpm
      exact wf_tail _ p (hw (Effect.wgDone :: p) (by simp))
    · exact hw p (by simp [hpm])
  · simp only [hg, List.map_append, List.map_cons, donesOf_cons_wgDone, List.sum_append,
      List.sum_cons]
    omega
  · refine ⟨hc.1, ?_, ?_⟩
    · intro hx
      have := (hc.2.1 hx).2
      omega
    · intro hx
      have := (hc.2.2 hx).2
      omega

/-- Every step of a `checkService` goroutine keeps the invariant. -/
theorem workerStep_inv {env : Env} {all : List String} {T : Int} {s s' : Sys} {i : Nat}
    (h : Inv env all T s) (hne : s.mainPc ≠ .exited) (hs : workerStep s i = some s') :
    Inv env all T s' := by
  unfold workerStep at hs
  cases hg : s.procs[i]? with
  | none => simp [hg] at hs
  | some p =>
    cases p with
    | nil => simp [hg] at hs
    | cons e rest =>
      obtain ⟨pre, post, hp, hset⟩ := getElem?_decompose s.procs i (e :: rest) hg
      have hmem : e :: rest ∈ s.procs := by simp [hp]
      have hpos : 0 < s.wg := h.wg_pos hmem (by simp)
      simp only [hg, hset] at hs
      cases e with
      | dial n a t =>
        simp only [Option.some.injEq] at hs
        subst hs
        exact inv_silent h pre post _ rest hp (sendsOf_cons_dial n a t rest)
          (donesOf_cons_dial n a t rest)
      | connClose =>
        simp only [Option.some.injEq] at hs
        subst hs
        exact inv_silent h pre post _ rest hp (sendsOf_cons_connClose rest)
          (donesOf_cons_connClose rest)
      | send r =>
        have hcl : ¬ (s.closes > 0) := by
          intro hx
          have h1 := h.closes_le.2 hx
          have h2 := (h.closerInv.2.2 h1).2
          omega
        simp only [hcl, if_false] at hs
        split at hs
        · simp only [Option.some.injEq] at hs
          subst hs
          exact inv_send h hne pre post r rest hp
        · simp at hs
      | wgDone =>
        have hz : ¬ (s.wg = 0) := by omega
        simp only [hz, if_false, Option.some.injEq] at hs
        subst hs
        exact inv_done h pre post rest hp

/-- Every step of the closing goroutine keeps the invariant. -/
theorem closerStep_inv {env : Env} {all : List String} {T : Int} {s s' : Sys}
    (h : Inv env all T s) (hne : s.mainPc ≠ .exited) (hs : closerStep s = some s') :
    Inv env all T s' := by
  unfold closerStep at hs
  have hc := h.closerInv
  have hal := h.afterLaunch
  have hat := h.atLaunch
  cases hcl : s.closer with
  | notStarted => simp [hcl] at hs
  | returned => simp [hcl] at hs
  | waiting =>
    simp only [hcl] at hs
    split at hs
    · rename_i hw
      simp only [Option.some.injEq] at hs
      subst hs
      have h0 := hc.1 (Or.inr hcl)
      refine { h with atLaunch := ?_, afterLaunch := ?_, closerInv := ?_ }
      · intro hx
        have := (hat hx).1
        simp [hcl] at this
      · intro hx
        exact ⟨(hal hx).1, by simp⟩
      · simp [h0, hw]
    · simp at hs
  | closing =>
    have h0 := hc.2.1 hcl
    have hz : ¬ (s.closes > 0) := by omega
    simp only [hcl, hz, if_false, Option.some.injEq] at hs
    subst hs
    refine { h with atLaunch := ?_, afterLaunch := ?_, closerInv := ?_, atExit := ?_ }
    · intro hx
      have := (hat hx).1
      simp [hcl] at this
    · intro hx
      exact ⟨(hal hx).1, by simp⟩
    · simp [h0.1, h0.2]
    · intro hx
      exact absurd hx hne

theorem launchedAddresses_skip (pre : List String) (a : String) (h : TrimSpace a = "") :
    launchedAddresses (pre ++ [a]) = launchedAddresses pre := by
  simp [launchedAddresses, h]

theorem launchedAddresses_keep (pre : List String) (a : String) (h : ¬ TrimSpace a = "") :
    launchedAddresses (pre ++ [a]) = launchedAddresses pre ++ [TrimSpace a] := by
  simp [launchedAddresses, h]

/-- An iteration of the launch loop on an element that is empty once trimmed
keeps the invariant. -/
theorem inv_skip {env : Env} {all : List String} {T : Int} {s : Sys}
    (h : Inv env all T s) (hm : s.mainPc = .launching) (a : String) (rest : List String)
    (hp : s.pending = a :: rest) (ha : TrimSpace a = "") :
    Inv env all T { s with pending := rest } := by
  have hl := h.launch
  refine { h with launch := ?_, afterLaunch := ?_ }
  · obtain ⟨q, h1, h2, h3⟩ := hl
    refine ⟨q ++ [a], ?_, ?_, ?_⟩
    · simp [h1, hp]
    · rw [launchedAddresses_skip q a ha]; exact h2
    · rw [launchedAddresses_skip q a ha]; exact h3
  · intro hx
    exact absurd hm hx

/-- An iteration of the launch loop that starts a check keeps the invariant. -/
theorem inv_launch {env : Env} {all : List String} {T : Int} {s : Sys}
    (h : Inv env all T s) (hm : s.mainPc = .launching) (a : String) (rest : List String)
    (hp : s.pending = a :: rest) (ha : ¬ TrimSpace a = "") :
    Inv env all T { s with
      pending := rest,
      wg := s.wg + 1,
      procs := s.procs ++ [checkService (TrimSpace a) s.timeout (env.check s.procs.length)] } := by
  have hl := h.launch
  have hat := h.atLaunch hm
  refine { h with launch := ?_, wf := ?_, wgEq := ?_, afterLaunch := ?_, closerInv := ?_ }
  · obtain ⟨q, h1, h2, h3⟩ := hl
    refine ⟨q ++ [a], ?_, ?_, ?_⟩
    · simp [h1, hp]
    · rw [launchedAddresses_keep q a ha]; simp [h2]
    · rw [launchedAddresses_keep q a ha, programsFrom_append]
      simp only [programsFrom, List.flatMap_append, ← Multiset.coe_add, ← h3, h2, h.tmo,
        Nat.zero_add, List.flatMap_cons, List.flatMap_nil, List.append_nil]
      abel
  · intro p hpm
    simp only [List.mem_append, List.mem_singleton] at hpm
    rcases hpm with hpm | hpm
    · exact h.wf p hpm
    · right
      rw [hpm]
      exact checkService_last _ _ _
  · simp only [List.map_append, List.map_cons, List.map_nil, List.sum_append, List.sum_cons,
      List.sum_nil, checkService_dones, h.wgEq, Nat.add_zero]
  · intro hx
    exact absurd hm hx
  · have hc := h.closerInv
    refine ⟨hc.1, ?_, ?_⟩
    · intro hx
      rw [hat.1] at hx
      cases hx
    · intro hx
      rw [hat.1] at hx
      cases hx

/-- The end of the launch loop (start of the closing goroutine, header of the
report) keeps the invariant. -/
theorem inv_startDrain {env : Env} {all : List String} {T : Int} {s : Sys}
    (h : Inv env all T s) (hm : s.mainPc = .launching) (hp : s.pending = []) :
    Inv env all T { s with
      closer := .waiting,
      mainPc := .draining,
      stdout := s.stdout ++
        ["Service Availability Check Results:\n", "==================================\n"] } := by
  have hat := h.atLaunch hm
  have hc := h.closerInv
  refine { h with atLaunch := ?_, afterLaunch := ?_, closerInv := ?_, atDrain := ?_,
                  atExit := ?_ }
  · intro hx
    cases hx
  · intro _
    exact ⟨hp, by simp⟩
  · refine ⟨fun _ => hc.1 (Or.inl hat.1), ?_, ?_⟩
    · intro hx
      cases hx
    · intro hx
      cases hx
  · intro _
    simp [hat.2.1, hat.2.2.1, hat.2.2.2, reportHeader]
  · intro hx
    cases hx

/-- One receive of the drain loop, with the loop body, keeps the invariant. -/
theorem inv_drain {env : Env} {all : List String} {T : Int} {s : Sys}
    (h : Inv env all T s) (hm : s.mainPc = .draining) (r : ServiceResult)
    (rest : List ServiceResult) (hb : s.buf = r :: rest) :
    Inv env all T (drainBody { s with buf := rest, received := s.received ++ [r] } r) := by
  have hl := h.launch
  have had := h.atDrain hm
  have hcount := h.count
  have launch' : ∃ pre, all = pre ++ s.pending ∧
      s.procs.length = (launchedAddresses pre).length ∧
      ((s.received ++ [r] ++ rest ++ s.procs.flatMap sendsOf : List ServiceResult) :
          Multiset ServiceResult) =
        ((programsFrom env T 0 (launchedAddresses pre)).flatMap sendsOf :
          List ServiceResult) := by
    obtain ⟨q, h1, h2, h3⟩ := hl
    refine ⟨q, h1, h2, ?_⟩
    rw [← h3, hb]
    simp
  unfold drainBody
  split
  · rename_i hav
    refine { h with launch := launch', count := ?_, atLaunch := ?_, atDrain := ?_,
                    atExit := ?_ }
    · simp [hcount, List.countP_append, hav]
    · intro hx
      rw [hm] at hx
      cases hx
    · intro _
      simp [had.1, had.2]
    · intro hx
      rw [hm] at hx
      cases hx
  · rename_i hav
    refine { h with launch := launch', count := ?_, atLaunch := ?_, atDrain := ?_,
                    atExit := ?_ }
    · simp [hcount, List.countP_append, hav]
    · intro hx
      rw [hm] at hx
      cases hx
    · intro _
      simp [had.1, had.2]
    · intro hx
      rw [hm] at hx
      cases hx

/-- Leaving the drain loop on the closed, empty channel keeps the invariant. -/
theorem inv_finish {env : Env} {all : List String} {T : Int} {s : Sys}
    (h : Inv env all T s) (hm : s.mainPc = .draining) (hb : s.buf = [])
    (hc : s.closes > 0) : Inv env all T (mainFinish s) := by
  have had := h.atDrain hm
  have hle := h.closes_le
  unfold mainFinish
  refine { h with atLaunch := ?_, afterLaunch := ?_, atDrain := ?_, atExit := ?_ }
  · intro hx
    cases hx
  · intro _
    exact h.afterLaunch (by rw [hm]; simp)
  · intro hx
    cases hx
  · intro _
    refine ⟨?_, hb, ?_, ?_⟩
    · show s.closes = 1
      omega
    · simp [had.1, h.addrs]
    · split <;> simp_all

/-- Every step of the main goroutine keeps the invariant. -/
theorem mainStep_inv {env : Env} {all : List String} {T : Int} {s s' : Sys}
    (h : Inv env all T s) (hs : mainStep env s = some s') : Inv env all T s' := by
  unfold mainStep at hs
  cases hm : s.mainPc with
  | exited => simp [hm] at hs
  | launching =>
    simp only [hm] at hs
    cases hp : s.pending with
    | nil =>
      simp only [hp, Option.some.injEq] at hs
      subst hs
      exact (by simpa only [hm, hp] using inv_startDrain h hm hp)
    | cons a rest =>
      simp only [hp] at hs
      split at hs
      · rename_i ha
        simp only [Option.some.injEq] at hs
        subst hs
        exact (by simpa only [hm, hp] using inv_skip h hm a rest hp ha)
      · rename_i ha
        simp only [Option.some.injEq] at hs
        subst hs
        exact (by simpa only [hm, hp] using inv_launch h hm a rest hp ha)
  | draining =>
    simp only [hm] at hs
    cases hb : s.buf with
    | nil =>
      simp only [hb] at hs
      split at hs
      · rename_i hc
        simp only [Option.some.injEq] at hs
        subst hs
        exact (by simpa only [hm, hb] using inv_finish h hm hb hc)
      · simp at hs
    | cons r rest =>
      simp only [hb, Option.some.injEq] at hs
      subst hs
      exact (by simpa only [hm, hb] using inv_drain h hm r rest hb)

/-- Every step keeps the invariant. -/
theorem step_inv {env : Env} {all : List String} {T : Int} {s s' : Sys} {t : Tid}
    (h : Inv env all T s) (hs : step env s t = some s') : Inv env all T s' := by
  unfold step at hs
  split at hs
  · simp at hs
  · rename_i hne
    cases t with
    | main => exact mainStep_inv h hs
    | closer => exact closerStep_inv h hne hs
    | worker i => exact workerStep_inv h hne hs

/-- The invariant holds after every schedule. -/
theorem exec_inv {env : Env} {all : List String} {T : Int} (sched : List Tid) {s : Sys}
    (h : Inv env all T s) : Inv env all T (exec env s sched) := by
  induction sched generalizing s with
  | nil => exact h
  | cons t ts ih =>
    show Inv env all T (exec env ((step env s t).getD s) ts)
    cases hs : step env s t with
    | none => exact ih h
    | some s' => exact ih (step_inv h hs)

/-- The invariant holds when the launch loop starts. -/
theorem mainStart_inv (env : Env) (servicesFlag : String) (timeoutFlag : Int)
    (hne : servicesFlag ≠ "") :
    Inv env (Split servicesFlag ',') (wrapInt64 (wrapInt64 timeoutFlag * Second))
      (mainStart servicesFlag timeoutFlag) := by
  unfold mainStart
  rw [if_neg hne]
  refine { addrs := rfl, tmo := rfl, capEq := rfl, launch := ⟨[], by simp, rfl, rfl⟩,
           wf := ?_, wgEq := rfl, noPanic := rfl, count := rfl, atLaunch := ?_,
           afterLaunch := ?_, closerInv := ?_, atDrain := ?_, atExit := ?_ }
  · intro p hp
    simp at hp
  · intro _
    exact ⟨rfl, rfl, rfl, rfl⟩
  · intro hx
    exact absurd rfl hx
  · simp
  · intro hx
    cases hx
  · intro hx
    cases hx

/-- The invariant holds in every state of a run on a non-empty flag. -/
theorem run_inv (env : Env) (servicesFlag : String) (timeoutFlag : Int) (sched : List Tid)
    (hne : servicesFlag ≠ "") :
    Inv env (Split servicesFlag ',') (wrapInt64 (wrapInt64 timeoutFlag * Second))
      (run env servicesFlag timeoutFlag sched) :=
  exec_inv sched (mainStart_inv env servicesFlag timeoutFlag hne)

/-! ## Progress -/

theorem workerStep_measure {s s' : Sys} {i : Nat} (hne : s.mainPc ≠ .exited)
    (hs : workerStep s i = some s') : measure s' < measure s := by
  unfold workerStep at hs
  cases hg : s.procs[i]? with
  | none => simp [hg] at hs
  | some p =>
    cases p with
    | nil => simp [hg] at hs
    | cons e rest =>
      obtain ⟨pre, post, hp, hset⟩ := getElem?_decompose s.procs i (e :: rest) hg
      have hmain : 0 < (match s.mainPc with
          | .launching => 4
          | .draining => 1
          | .exited => 0) := by
        cases hm : s.mainPc <;> simp_all
      simp only [hg, hset] at hs
      cases e with
      | dial n a t =>
        simp only [Option.some.injEq] at hs
        subst hs
        simp only [measure, hp, List.map_append, List.map_cons, List.sum_append, List.sum_cons,
          List.length_cons]
        omega
      | connClose =>
        simp only [Option.some.injEq] at hs
        subst hs
        simp only [measure, hp, List.map_append, List.map_cons, List.sum_append, List.sum_cons,
          List.length_cons]
        omega
      | send r =>
        dsimp only at hs
        split at hs
        · simp only [Option.some.injEq] at hs
          subst hs
          simp only [measure, panic]
          omega
        · split at hs
          · simp only [Option.some.injEq] at hs
            subst hs
            simp only [measure, hp, List.map_append, List.map_cons, List.sum_append,
              List.sum_cons, List.length_cons, List.length_append, List.length_nil]
            omega
          · simp at hs
      | wgDone =>
        dsimp only at hs
        split at hs
        · simp only [Option.some.injEq] at hs
          subst hs
          simp only [measure, panic]
          omega
        · simp only [Option.some.injEq] at hs
          subst hs
          simp only [measure, hp, List.map_append, List.map_cons, List.sum_append,
            List.sum_cons, List.length_cons]
          omega

theorem closerStep_measure {s s' : Sys} (hne : s.mainPc ≠ .exited)
    (hs : closerStep s = some s') : measure s' < measure s := by
  unfold closerStep at hs
  have hmain : 0 < (match s.mainPc with
      | .launching => 4
      | .draining => 1
      | .exited => 0) := by
    cases hm : s.mainPc <;> simp_all
  cases hcl : s.closer with
  | notStarted => simp [hcl] at hs
  | returned => simp [hcl] at hs
  | waiting =>
    simp only [hcl] at hs
    split at hs
    · simp only [Option.some.injEq] at hs
      subst hs
      simp only [measure, hcl]
      omega
    · simp at hs
  | closing =>
    simp only [hcl] at hs
    split at hs
    · simp only [Option.some.injEq] at hs
      subst hs
      simp only [measure, panic, hcl]
      omega
    · simp only [Option.some.injEq] at hs
      subst hs
      simp only [measure, hcl]
      omega

theorem mainStep_measure {env : Env} {s s' : Sys} (hs : mainStep env s = some s') :
    measure s' < measure s := by
  unfold mainStep at hs
  have hcl : (match s.closer with
      | .notStarted => 2
      | .waiting => 2
      | .closing => 1
      | .returned => 0) ≤ 2 := by
    cases s.closer <;> simp
  cases hm : s.mainPc with
  | exited => simp [hm] at hs
  | launching =>
    simp only [hm] at hs
    cases hp : s.pending with
    | nil =>
      simp only [hp, Option.some.injEq] at hs
      subst hs
      simp only [measure, hm, hp]
      omega
    | cons a rest =>
      simp only [hp] at hs
      split at hs
      · simp only [Option.some.injEq] at hs
        subst hs
        simp only [measure, hm, hp, List.length_cons]
        omega
      · simp only [Option.some.injEq] at hs
        subst hs
        have hlen := checkService_length_le (TrimSpace a) s.timeout (env.check s.procs.length)
        simp only [measure, hm, hp, List.length_cons, List.map_append, List.map_cons,
          List.map_nil, List.sum_append, List.sum_cons, List.sum_nil]
        omega
  | draining =>
    simp only [hm] at hs
    cases hb : s.buf with
    | nil =>
      simp only [hb] at hs
      split at hs
      · simp only [Option.some.injEq] at hs
        subst hs
        simp only [measure, mainFinish, hm, hb]
        omega
      · simp at hs
    | cons r rest =>
      simp only [hb, Option.some.injEq] at hs
      subst hs
      unfold drainBody
      split <;> simp only [measure, hm, hb, List.length_cons] <;> omega

/-- Every step lowers the measure: no run takes more steps than the measure
of its first state. -/
theorem step_measure {env : Env} {s s' : Sys} {t : Tid} (hs : step env s t = some s') :
    measure s' < measure s := by
  unfold step at hs
  split at hs
  · simp at hs
  · rename_i hne
    cases t with
    | main => exact mainStep_measure hs
    | closer => exact closerStep_measure hne hs
    | worker i => exact workerStep_measure hne hs

/-- A check that is about to send finds the channel open and its buffer not
full. -/
theorem Inv.send_enabled {env : Env} {all : List String} {T : Int} {s : Sys}
    (h : Inv env all T s) {i : Nat} {r : ServiceResult} {rest : List Effect}
    (hg : s.procs[i]? = some (Effect.send r :: rest)) :
    s.closes = 0 ∧ s.buf.length < s.cap := by
  obtain ⟨pre, post, hp, _⟩ := getElem?_decompose s.procs i _ hg
  have hmem : Effect.send r :: rest ∈ s.procs := by simp [hp]
  have hpos : 0 < s.wg := h.wg_pos hmem (by simp)
  have hle := h.closes_le
  have hcl : s.closes = 0 := by
    by_contra hx
    have h1 := hle.2 (by omega)
    have h2 := (h.closerInv.2.2 h1).2
    omega
  refine ⟨hcl, ?_⟩
  have hc := h.count_le
  rw [hp] at hc
  simp only [List.flatMap_append, List.flatMap_cons, sendsOf_cons_send, List.length_append,
    List.length_cons] at hc
  omega

theorem dones_sum_pos (ps : List (List Effect)) (h : 0 < (ps.map donesOf).sum) :
    ∃ p ∈ ps, p ≠ [] := by
  induction ps with
  | nil => simp at h
  | cons p ps ih =>
    cases p with
    | nil =>
      simp only [List.map_cons, List.sum_cons, donesOf, List.count_nil, Nat.zero_add] at h
      obtain ⟨q, hq, hne⟩ := ih h
      exact ⟨q, by simp [hq], hne⟩
    | cons e rest => exact ⟨e :: rest, by simp, by simp⟩

/-- While the process has not ended, some thread can move. -/
theorem deadlock_free (env : Env) {all : List String} {T : Int} {s : Sys}
    (h : Inv env all T s) (hne : s.mainPc ≠ .exited) :
    ∃ t, (step env s t).isSome = true := by
  cases hm : s.mainPc with
  | exited => exact absurd hm hne
  | launching =>
    refine ⟨.main, ?_⟩
    cases hp : s.pending with
    | nil => simp [step, hm, mainStep, hp]
    | cons a rest =>
      by_cases ha : TrimSpace a = ""
      · simp [step, hm, mainStep, hp, ha]
      · simp [step, hm, mainStep, hp, ha]
  | draining =>
    cases hb : s.buf with
    | cons r rest =>
      refine ⟨.main, ?_⟩
      simp [step, hm, mainStep, hb]
    | nil =>
      by_cases hc : s.closes > 0
      · refine ⟨.main, ?_⟩
        simp [step, hm, mainStep, hb, hc]
      · have hns := (h.afterLaunch (by rw [hm]; simp)).2
        cases hcl : s.closer with
        | notStarted => exact absurd hcl hns
        | returned =>
          have := (h.closerInv.2.2 hcl).1
          omega
        | closing =>
          refine ⟨.closer, ?_⟩
          by_cases hc2 : s.closes > 0 <;> simp [step, hm, closerStep, hcl, hc2]
        | waiting =>
          by_cases hw : s.wg = 0
          · refine ⟨.closer, ?_⟩
            simp [step, hm, closerStep, hcl, hw]
          · have hsum : 0 < (s.procs.map donesOf).sum := by
              rw [← h.wgEq]; omega
            obtain ⟨p, hp, hpne⟩ := dones_sum_pos s.procs hsum
            obtain ⟨i, hi⟩ := List.mem_iff_getElem?.mp hp
            refine ⟨.worker i, ?_⟩
            cases p with
            | nil => exact absurd rfl hpne
            | cons e rest =>
              cases e with
              | dial n a t => simp [step, hm, workerStep, hi]
              | connClose => simp [step, hm, workerStep, hi]
              | send r =>
                have hen := h.send_enabled hi
                simp [step, hm, workerStep, hi, hen.1, hen.2]
              | wgDone => simp [step, hm, workerStep, hi, hw]

/-- From every state of a run some schedule leads to the end of the process. -/
theorem can_finish (env : Env) {all : List String} {T : Int} (n : Nat) :
    ∀ s : Sys, measure s ≤ n → Inv env all T s →
      ∃ sched, (exec env s sched).mainPc = .exited := by
  induction n with
  | zero =>
    intro s hn _
    refine ⟨[], ?_⟩
    show s.mainPc = .exited
    cases hm : s.mainPc with
    | exited => rfl
    | launching => simp [measure, hm] at hn
    | draining => simp [measure, hm] at hn
  | succ n ih =>
    intro s hn h
    by_cases hx : s.mainPc = .exited
    · exact ⟨[], hx⟩
    · obtain ⟨t, ht⟩ := deadlock_free env h hx
      obtain ⟨s', hs⟩ := Option.isSome_iff_exists.mp ht
      have hlt := step_measure hs
      obtain ⟨sched, hsched⟩ := ih s' (by omega) (step_inv h hs)
      refine ⟨t :: sched, ?_⟩
      show (exec env ((step env s t).getD s) sched).mainPc = .exited
      rw [hs]
      exact hsched

theorem exec_append (env : Env) (s : Sys) (xs ys : List Tid) :
    exec env s (xs ++ ys) = exec env (exec env s xs) ys := by
  simp [exec, List.foldl_append]

/-! ## What holds once the channel is closed and once the process has ended -/

theorem exec_exited (env : Env) (s : Sys) (sched : List Tid) (h : s.mainPc = .exited) :
    exec env s sched = s := by
  induction sched with
  | nil => rfl
  | cons t ts ih =>
    show exec env ((step env s t).getD s) ts = s
    simp only [step, h, if_true, Option.getD_none]
    exact ih

theorem launchedAddresses_length (l : List String) :
    (launchedAddresses l).length = l.countP fun t => decide (TrimSpace t ≠ "") := by
  induction l with
  | nil => rfl
  | cons a as ih =>
    by_cases ha : TrimSpace a = ""
    · simpa [launchedAddresses, ha, List.countP_cons] using ih
    · simpa [launchedAddresses, ha, List.countP_cons] using ih

/-- Once `close(results)` has run, every launched check has sent its result
and called `wg.Done()`, and the launch loop is over. -/
theorem Inv.closed_all_done {env : Env} {all : List String} {T : Int} {s : Sys}
    (h : Inv env all T s) (hc : 0 < s.closes) :
    (∀ p ∈ s.procs, p = []) ∧ s.pending = [] ∧ s.wg = 0 ∧
      s.procs.length = (launchedAddresses all).length ∧
      (s.received ++ s.buf).Perm
        ((programsFrom env T 0 (launchedAddresses all)).flatMap sendsOf) := by
  have hr := h.closes_le.2 hc
  have hw := (h.closerInv.2.2 hr).2
  have hp : s.pending = [] := by
    apply (h.afterLaunch _).1
    intro hm
    have := (h.atLaunch hm).1
    rw [hr] at this
    cases this
  have hall : ∀ p ∈ s.procs, p = [] := by
    intro p hpm
    by_contra hne
    have := h.wg_pos hpm hne
    omega
  have hflat : s.procs.flatMap sendsOf = [] := by
    rw [List.flatMap_eq_nil_iff]
    intro p hpm
    rw [hall p hpm]
    rfl
  obtain ⟨pre, h1, h2, h3⟩ := h.launch
  rw [hp, List.append_nil] at h1
  subst h1
  rw [hflat, List.append_nil] at h3
  exact ⟨hall, hp, hw, h2, Multiset.coe_eq_coe.mp h3⟩

/-- When the process has ended, the drain loop has received exactly the
results of the launched checks. -/
theorem Inv.exited_received {env : Env} {all : List String} {T : Int} {s : Sys}
    (h : Inv env all T s) (hx : s.mainPc = .exited) :
    s.received.Perm ((programsFrom env T 0 (launchedAddresses all)).flatMap sendsOf) := by
  have he := h.atExit hx
  have hd := h.closed_all_done (by omega)
  have := hd.2.2.2.2
  rwa [he.2.1, List.append_nil] at this

theorem programs_addresses (env : Env) (T : Int) (k : Nat) (L : List String) :
    ((programsFrom env T k L).flatMap sendsOf).map (fun r => r.Address) = L := by
  induction L generalizing k with
  | nil => rfl
  | cons a as ih =>
    simp [programsFrom, List.flatMap_cons, checkService_sends, ih]

theorem programs_unavailable (env : Env) (T : Int) (k : Nat) (L : List String) :
    (∃ r ∈ (programsFrom env T k L).flatMap sendsOf, r.Available = false) ↔
      ∃ i a, L[i]? = some a ∧
        (Contains a ":" = false ∨ (env.check (k + i)).dialErr ≠ none) := by
  induction L generalizing k with
  | nil => simp [programsFrom]
  | cons a as ih =>
    have hhead : (Contains a ":" && (env.check k).dialErr.isNone) = false ↔
        (Contains a ":" = false ∨ (env.check k).dialErr ≠ none) := by
      cases Contains a ":" <;> cases (env.check k).dialErr <;> simp
    simp only [programsFrom, List.flatMap_cons, checkService_sends, List.singleton_append,
      List.exists_mem_cons_iff, hhead, ih (k + 1)]
    constructor
    · rintro (h | ⟨i, b, h1, h2⟩)
      · exact ⟨0, a, by simp, by simpa using h⟩
      · exact ⟨i + 1, b, by simpa using h1, by
          rw [show k + (i + 1) = k + 1 + i by omega]; exact h2⟩
    · rintro ⟨i, b, h1, h2⟩
      cases i with
      | zero =>
        left
        simp only [List.getElem?_cons_zero, Option.some.injEq] at h1
        subst h1
        simpa using h2
      | succ j =>
        right
        refine ⟨j, b, by simpa using h1, ?_⟩
        rw [show k + 1 + j = k + (j + 1) by omega]
        exact h2

theorem countP_pos_unavailable (rs : List ServiceResult) :
    0 < rs.countP (fun r => !r.Available) ↔ ∃ r ∈ rs, r.Available = false := by
  rw [List.countP_pos_iff]
  simp

/-- Every run on a non-empty flag can be continued to the end of the process. -/
theorem run_can_finish (env : Env) (servicesFlag : String) (timeoutFlag : Int)
    (sched : List Tid) (hne : servicesFlag ≠ "") :
    ∃ more, (run env servicesFlag timeoutFlag (sched ++ more)).mainPc = .exited := by
  have hinv := run_inv env servicesFlag timeoutFlag sched hne
  obtain ⟨more, hmore⟩ := can_finish env _ _ (le_refl _) hinv
  refine ⟨more, ?_⟩
  unfold run at hmore ⊢
  rw [exec_append]
  exact hmore

/-! ## The claims -/

/-- C1: for every non-empty `-services` flag, every outcome of the connects
and every schedule, the run can be continued to the end of the process, and
once the process has ended the drain loop has received as many results as
`strings.Split(services, ",")` has elements that are non-empty after
`strings.TrimSpace`; the addresses of the received results are those trimmed
elements, each as often as it occurs (one result each, none for an element that
is empty once trimmed). -/
theorem C1_result_count (env : Env) (servicesFlag : String) (timeoutFlag : Int)
    (sched : List Tid) (hne : servicesFlag ≠ "") :
    (∃ more, (run env servicesFlag timeoutFlag (sched ++ more)).mainPc = .exited) ∧
    ((run env servicesFlag timeoutFlag sched).mainPc = .exited →
      (run env servicesFlag timeoutFlag sched).received.length =
        (Split servicesFlag ',').countP (fun t => decide (TrimSpace t ≠ "")) ∧
      ((run env servicesFlag timeoutFlag sched).received.map fun r => r.Address).Perm
        (((Split servicesFlag ',').map TrimSpace).filter fun a => a ≠ "")) := by
  have hinv := run_inv env servicesFlag timeoutFlag sched hne
  constructor
  · exact run_can_finish env servicesFlag timeoutFlag sched hne
  · intro hx
    have hperm := hinv.exited_received hx
    constructor
    · rw [hperm.length_eq, programsFrom_sends_length, launchedAddresses_length]
    · have h2 := hperm.map (fun r => r.Address)
      rw [programs_addresses] at h2
      exact h2

/-- Witness of C1 on the flag `a:1, ,b`: the run ends with two results. -/
theorem C1_result_count_witness :
    (run envAllUp "a:1, ,b" 5 demoSchedule).mainPc = .exited ∧
    (run envAllUp "a:1, ,b" 5 demoSchedule).received.length = 2 :=
  ⟨by decide,
   ((C1_result_count envAllUp "a:1, ,b" 5 demoSchedule (by decide)).2 (by decide)).1.trans
     (by decide)⟩

/-- C2: for every address without a `:` and every timeout, `checkService`
sends exactly one result, with `Available = false` and the fixed error text,
then calls `wg.Done()`; it makes no call of `net.DialTimeout`. -/
theorem C2_malformed_address (address : String) (timeout : Int) (w : CheckEnv)
    (h : ':' ∉ address.data) :
    checkService address timeout w =
      [.send { Address := address, Available := false,
               Error := "invalid address format (should be IP:port)",
               Duration := w.elapsed },
       .wgDone] ∧
    sendsOf (checkService address timeout w) =
      [{ Address := address, Available := false,
         Error := "invalid address format (should be IP:port)",
         Duration := w.elapsed }] ∧
    dialsOf (checkService address timeout w) = [] := by
  have hc : Contains address ":" = false := by
    rw [← Bool.not_eq_true, contains_colon_iff]
    exact h
  simp [checkService, hc, sendsOf, dialsOf]

/-- Witness of C2 on the address `not-an-address`. -/
theorem C2_malformed_address_witness :
    dialsOf (checkService "not-an-address" 2000000000 { dialErr := none, elapsed := 7 }) = [] :=
  (C2_malformed_address "not-an-address" 2000000000 { dialErr := none, elapsed := 7 }
    (by decide)).2.2

/-- C3: for every non-empty `-services` flag, every run can be continued to
the end of the process, and when the process has ended its exit status is 1 or
0; it is 1 exactly when some launched address (a trimmed, non-empty element)
has no `:` or its connect fails, and 0 otherwise; and it is 1 exactly when
`unavailableCount >= 1`, 0 exactly when `unavailableCount = 0`. -/
theorem C3_exit_status (env : Env) (servicesFlag : String) (timeoutFlag : Int)
    (sched : List Tid) (hne : servicesFlag ≠ "") :
    (∃ more, (run env servicesFlag timeoutFlag (sched ++ more)).mainPc = .exited) ∧
    ((run env servicesFlag timeoutFlag sched).mainPc = .exited →
      ((run env servicesFlag timeoutFlag sched).exitCode = some 1 ∨
        (run env servicesFlag timeoutFlag sched).exitCode = some 0) ∧
      ((run env servicesFlag timeoutFlag sched).exitCode = some 1 ↔
        ∃ i a, (launchedAddresses (Split servicesFlag ','))[i]? = some a ∧
          (':' ∉ a.data ∨ (env.check i).dialErr ≠ none)) ∧
      ((run env servicesFlag timeoutFlag sched).exitCode = some 0 ↔
        ¬ ∃ i a, (launchedAddresses (Split servicesFlag ','))[i]? = some a ∧
          (':' ∉ a.data ∨ (env.check i).dialErr ≠ none)) ∧
      ((run env servicesFlag timeoutFlag sched).exitCode = some 1 ↔
        1 ≤ (run env servicesFlag timeoutFlag sched).unavailableCount) ∧
      ((run env servicesFlag timeoutFlag sched).exitCode = some 0 ↔
        (run env servicesFlag timeoutFlag sched).unavailableCount = 0)) := by
  refine ⟨run_can_finish env servicesFlag timeoutFlag sched hne, ?_⟩
  intro hx
  have hinv := run_inv env servicesFlag timeoutFlag sched hne
  have hperm := hinv.exited_received hx
  have hexit := (hinv.atExit hx).2.2.2
  have hcount := hinv.count
  have hiff : 0 < (run env servicesFlag timeoutFlag sched).unavailableCount ↔
      ∃ i a, (launchedAddresses (Split servicesFlag ','))[i]? = some a ∧
        (':' ∉ a.data ∨ (env.check i).dialErr ≠ none) := by
    rw [hcount, hperm.countP_eq, countP_pos_unavailable, programs_unavailable]
    simp only [Nat.zero_add, ← contains_colon_iff, Bool.not_eq_true]
  rw [← hiff]
  generalize (run env servicesFlag timeoutFlag sched).unavailableCount = n at hexit ⊢
  generalize (run env servicesFlag timeoutFlag sched).exitCode = c at hexit ⊢
  subst hexit
  by_cases hn : n > 0
  · simp [hn]
    omega
  · simp [hn]
    omega

/-- Witness of C3 on the flag `a:1, ,b`, whose last element has no `:`: the
exit status is 1. -/
theorem C3_exit_status_witness :
    (run envAllUp "a:1, ,b" 5 demoSchedule).mainPc = .exited ∧
    (run envAllUp "a:1, ,b" 5 demoSchedule).exitCode = some 1 :=
  ⟨by decide,
   (((C3_exit_status envAllUp "a:1, ,b" 5 demoSchedule (by decide)).2
      (by decide)).2.2.2.1).mpr
     (by decide)⟩

/-- C4: on the flag `a:1,,b:2`, whose middle element is empty, two checks are
launched and two results are received, yet the summary reads `3 services
checked`: the printed number is `len(serviceAddresses)`, which counts the
skipped element too. On the flag `127.0.0.1:9, not-an-address, 127.0.0.1:80`
three results are received and the summary reads 3. -/
theorem C4_summary_counts_skipped_elements :
    (run envAllDown "a:1,,b:2" 5 demoSchedule).mainPc = .exited ∧
    (run envAllDown "a:1,,b:2" 5 demoSchedule).received.length = 2 ∧
    (run envAllDown "a:1,,b:2" 5 demoSchedule).stdout.getLast? =
      some "Summary: 3 services checked, 2 unavailable\n" ∧
    (run envAllDown "127.0.0.1:9, not-an-address, 127.0.0.1:80" 2 demoSchedule).mainPc
      = .exited ∧
    (run envAllDown "127.0.0.1:9, not-an-address, 127.0.0.1:80" 2 demoSchedule).received.length
      = 3 ∧
    (run envAllDown "127.0.0.1:9, not-an-address, 127.0.0.1:80" 2 demoSchedule).stdout.getLast?
      = some "Summary: 3 services checked, 3 unavailable\n" := by
  decide

theorem drain_count (rs : List ServiceResult) (s : Sys) :
    (rs.foldl drainBody s).unavailableCount =
      s.unavailableCount + rs.countP (fun r => !r.Available) := by
  induction rs generalizing s with
  | nil => rfl
  | cons r rs ih =>
    rw [List.foldl_cons, ih]
    cases hr : r.Available with
    | false =>
      simp [drainBody, hr, List.countP_cons]
      omega
    | true => simp [drainBody, hr, List.countP_cons]

/-- C5: in every state of every run on a non-empty `-services` flag,
`unavailableCount` is the number of results received so far whose `Available`
is false; every run can be continued to the end of the process, and then that
number is the M of the last printed text, `Summary: <N> services checked, <M>
unavailable`; two runs of the same flag against the same world end with the
same count, whatever the order of arrival; and the drain loop body, run over
any sequence of results from any state, adds to the count the number of results
whose `Available` is false, the same for every reordering of the sequence. -/
theorem C5_unavailable_count (env : Env) (servicesFlag : String) (timeoutFlag : Int)
    (sched sched' : List Tid) (hne : servicesFlag ≠ "") :
    (run env servicesFlag timeoutFlag sched).unavailableCount =
      (run env servicesFlag timeoutFlag sched).received.countP (fun r => !r.Available) ∧
    (∃ more, (run env servicesFlag timeoutFlag (sched ++ more)).mainPc = .exited) ∧
    ((run env servicesFlag timeoutFlag sched).mainPc = .exited →
      (run env servicesFlag timeoutFlag sched).stdout.getLast? =
        some ("Summary: " ++ toString (Split servicesFlag ',').length ++
          " services checked, " ++
          toString ((run env servicesFlag timeoutFlag sched).received.countP
            (fun r => !r.Available)) ++ " unavailable\n")) ∧
    ((run env servicesFlag timeoutFlag sched).mainPc = .exited →
      (run env servicesFlag timeoutFlag sched').mainPc = .exited →
      (run env servicesFlag timeoutFlag sched').unavailableCount =
        (run env servicesFlag timeoutFlag sched).unavailableCount) ∧
    (∀ (s : Sys) (rs rs' : List ServiceResult), rs.Perm rs' →
      (rs.foldl drainBody s).unavailableCount =
        s.unavailableCount + rs.countP (fun r => !r.Available) ∧
      (rs'.foldl drainBody s).unavailableCount =
        (rs.foldl drainBody s).unavailableCount) := by
  have hinv := run_inv env servicesFlag timeoutFlag sched hne
  have hinv' := run_inv env servicesFlag timeoutFlag sched' hne
  refine ⟨hinv.count, run_can_finish env servicesFlag timeoutFlag sched hne, ?_, ?_, ?_⟩
  · intro hx
    rw [(hinv.atExit hx).2.2.1, ← hinv.count]
    simp
  · intro hx hx'
    rw [hinv.count, hinv'.count]
    exact ((hinv'.exited_received hx').trans (hinv.exited_received hx).symm).countP_eq _
  · intro s rs rs' hperm
    refine ⟨drain_count rs s, ?_⟩
    rw [drain_count, drain_count, hperm.countP_eq]

/-- Witness of C5 on the flag `a:1, ,b` with two schedules that deliver the
results in opposite orders. -/
theorem C5_unavailable_count_witness :
    ((run envAllUp "a:1, ,b" 5 demoSchedule).received.map fun r => r.Address) = ["a:1", "b"] ∧
    ((run envAllUp "a:1, ,b" 5 demoScheduleReversed).received.map fun r => r.Address)
      = ["b", "a:1"] ∧
    (run envAllUp "a:1, ,b" 5 demoScheduleReversed).unavailableCount =
      (run envAllUp "a:1, ,b" 5 demoSchedule).unavailableCount :=
  ⟨by decide, by decide,
   (C5_unavailable_count envAllUp "a:1, ,b" 5 demoSchedule demoScheduleReversed
     (by decide)).2.2.2.1 (by decide) (by decide)⟩

/-- C6: for every address with a `:` and every timeout, `checkService` calls
`net.DialTimeout("tcp", address, timeout)` exactly once and sends exactly one
result, whose `Address` is the address; when the connect succeeds the
connection is closed and the result has `Available = true` and an empty
`Error`; when it fails with an error the result has `Available = false` and the
text of that error; on both paths the call ends with its deferred `wg.Done()`
and performs nothing else. -/
theorem C6_connect_result (address : String) (timeout : Int) (w : CheckEnv)
    (h : ':' ∈ address.data) :
    dialsOf (checkService address timeout w) = [("tcp", address, timeout)] ∧
    (∃ r, sendsOf (checkService address timeout w) = [r] ∧ r.Address = address ∧
      (r.Available = true ↔ w.dialErr = none)) ∧
    (w.dialErr = none →
      checkService address timeout w =
        [.dial "tcp" address timeout, .connClose,
         .send { Address := address, Available := true, Error := "", Duration := w.elapsed },
         .wgDone]) ∧
    (∀ err, w.dialErr = some err →
      checkService address timeout w =
        [.dial "tcp" address timeout,
         .send { Address := address, Available := false, Error := err,
                 Duration := w.elapsed },
         .wgDone]) := by
  have hc : Contains address ":" = true := (contains_colon_iff address).mpr h
  cases hd : w.dialErr with
  | none => simp [checkService, hc, hd, sendsOf, dialsOf]
  | some e => simp [checkService, hc, hd, sendsOf, dialsOf]

/-- Witness of C6 on the address `127.0.0.1:9` with a refused connect. -/
theorem C6_connect_result_witness :
    checkService "127.0.0.1:9" 2000000000 { dialErr := some "connection refused", elapsed := 3 } =
      [.dial "tcp" "127.0.0.1:9" 2000000000,
       .send { Address := "127.0.0.1:9", Available := false, Error := "connection refused",
               Duration := 3 },
       .wgDone] :=
  (C6_connect_result "127.0.0.1:9" 2000000000
    { dialErr := some "connection refused", elapsed := 3 } (by decide)).2.2.2
    "connection refused" rfl

theorem resultLine_marker (r : ServiceResult) :
    (r.Available = true →
      resultLine r =
        "✅ " ++ r.Address ++ " - Available (" ++ fmtFloat2 (Seconds r.Duration) ++ " seconds)\n" ∧
      startsWith (resultLine r) "✅ " = true ∧
      startsWith (resultLine r) "❌ " = false) ∧
    (r.Available = false →
      resultLine r =
        "❌ " ++ r.Address ++ " - Unavailable: " ++ r.Error ++ " (" ++
          fmtFloat2 (Seconds r.Duration) ++ " seconds)\n" ∧
      startsWith (resultLine r) "❌ " = true ∧
      startsWith (resultLine r) "✅ " = false) := by
  constructor
  · intro h
    refine ⟨by simp [resultLine, h, fmtSeconds], ?_, ?_⟩
    · simp [resultLine, h, startsWith, String.data_append, List.isPrefixOf]
    · simp [resultLine, h, startsWith, String.data_append, List.isPrefixOf]
  · intro h
    refine ⟨by simp [resultLine, h, fmtSeconds], ?_, ?_⟩
    · simp [resultLine, h, startsWith, String.data_append, List.isPrefixOf]
    · simp [resultLine, h, startsWith, String.data_append, List.isPrefixOf]

/-- C7: for every non-empty `-services` flag, every run can be continued to
the end of the process, and when the process has ended the printed texts are
the two header lines, then one line per received result in the order of
reception, then the separator and the summary; there are as many result lines
as trimmed non-empty elements; the line of a result with `Available = true` is
`✅ <Address> - Available (<d> seconds)` and the line of a result with
`Available = false` is `❌ <Address> - Unavailable: <Error> (<d> seconds)`,
where `<d>` is `%.2f` of `Duration.Seconds()`; a line begins with exactly one
of the two markers; and for every duration of the `int64` range `<d>` is a
sign, an integer part, a point and exactly two decimal digits, writing a number
within half a hundredth (plus the rounding of the double, below `2^-19`) of
the duration in nanoseconds divided by `10^9`, that is the duration in seconds
to two decimal places. -/
theorem C7_result_lines (env : Env) (servicesFlag : String) (timeoutFlag : Int)
    (sched : List Tid) (hne : servicesFlag ≠ "") :
    (∃ more, (run env servicesFlag timeoutFlag (sched ++ more)).mainPc = .exited) ∧
    ((run env servicesFlag timeoutFlag sched).mainPc = .exited →
      (run env servicesFlag timeoutFlag sched).stdout =
        ["Service Availability Check Results:\n", "==================================\n"] ++
        (run env servicesFlag timeoutFlag sched).received.map resultLine ++
        ["==================================\n",
         "Summary: " ++ toString (Split servicesFlag ',').length ++ " services checked, " ++
           toString (run env servicesFlag timeoutFlag sched).unavailableCount ++
           " unavailable\n"] ∧
      ((run env servicesFlag timeoutFlag sched).received.map resultLine).length =
        (Split servicesFlag ',').countP (fun t => decide (TrimSpace t ≠ ""))) ∧
    (∀ r : ServiceResult,
      (r.Available = true →
        resultLine r =
          "✅ " ++ r.Address ++ " - Available (" ++ fmtFloat2 (Seconds r.Duration) ++
            " seconds)\n" ∧
        startsWith (resultLine r) "✅ " = true ∧
        startsWith (resultLine r) "❌ " = false) ∧
      (r.Available = false →
        resultLine r =
          "❌ " ++ r.Address ++ " - Unavailable: " ++ r.Error ++ " (" ++
            fmtFloat2 (Seconds r.Duration) ++ " seconds)\n" ∧
        startsWith (resultLine r) "❌ " = true ∧
        startsWith (resultLine r) "✅ " = false)) ∧
    (∀ d : Int, -9223372036854775808 ≤ d → d < 9223372036854775808 →
      ∃ (neg : Bool) (ip c1 c2 : Nat), c1 < 10 ∧ c2 < 10 ∧
        fmtFloat2 (Seconds d) = (if neg then "-" else "") ++ toString ip ++ "." ++
          String.mk [Char.ofNat (48 + c1), Char.ofNat (48 + c2)] ∧
        |(if neg then (-1 : ℚ) else 1) * ((ip : ℚ) + (c1 : ℚ) / 10 + (c2 : ℚ) / 100) -
            (d : ℚ) / 1000000000| ≤ 1 / 200 + 1 / 2 ^ 19) := by
  have hinv := run_inv env servicesFlag timeoutFlag sched hne
  refine ⟨run_can_finish env servicesFlag timeoutFlag sched hne, ?_, resultLine_marker,
    fmtSeconds_two_decimals⟩
  intro hx
  refine ⟨(hinv.atExit hx).2.2.1, ?_⟩
  rw [List.length_map, (hinv.exited_received hx).length_eq, programsFrom_sends_length,
    launchedAddresses_length]

/-- Witness of C7 on the flag `a:1, ,b`, each check taking 1234567890
nanoseconds: the lines read `1.23 seconds`. -/
theorem C7_result_lines_witness :
    (run envTimed "a:1, ,b" 5 demoSchedule).stdout =
      ["Service Availability Check Results:\n",
       "==================================\n",
       "✅ a:1 - Available (1.23 seconds)\n",
       "❌ b - Unavailable: invalid address format (should be IP:port) (1.23 seconds)\n",
       "==================================\n",
       "Summary: 3 services checked, 1 unavailable\n"] :=
  ((C7_result_lines envTimed "a:1, ,b" 5 demoSchedule (by decide)).2.1 (by decide)).1.trans
    (by decide)

/-- C8: in every state of every run on a non-empty `-services` flag, no
goroutine has panicked (no send on a closed channel, no second close) and
`close(results)` has run at most once; once it has run, the launch loop is
over, every launched check has performed all its effects (its send and its
`wg.Done()`), the wait group is at zero and the results received or still
buffered are exactly those of the launched checks; when the process has ended
the channel has been closed once and every result has been received; while the
process has not ended some thread can move, and every run can be continued to
the end of the process. -/
theorem C8_close_after_all_sends (env : Env) (servicesFlag : String) (timeoutFlag : Int)
    (sched : List Tid) (hne : servicesFlag ≠ "") :
    (run env servicesFlag timeoutFlag sched).panicked = false ∧
    (run env servicesFlag timeoutFlag sched).closes ≤ 1 ∧
    (0 < (run env servicesFlag timeoutFlag sched).closes →
      (run env servicesFlag timeoutFlag sched).pending = [] ∧
      (run env servicesFlag timeoutFlag sched).procs.length =
        (launchedAddresses (Split servicesFlag ',')).length ∧
      (∀ p ∈ (run env servicesFlag timeoutFlag sched).procs, p = []) ∧
      (run env servicesFlag timeoutFlag sched).wg = 0 ∧
      ((run env servicesFlag timeoutFlag sched).received ++
          (run env servicesFlag timeoutFlag sched).buf).Perm
        ((programsFrom env (wrapInt64 (wrapInt64 timeoutFlag * Second)) 0
          (launchedAddresses (Split servicesFlag ','))).flatMap sendsOf)) ∧
    ((run env servicesFlag timeoutFlag sched).mainPc = .exited →
      (run env servicesFlag timeoutFlag sched).closes = 1 ∧
      (run env servicesFlag timeoutFlag sched).received.Perm
        ((programsFrom env (wrapInt64 (wrapInt64 timeoutFlag * Second)) 0
          (launchedAddresses (Split servicesFlag ','))).flatMap sendsOf)) ∧
    ((run env servicesFlag timeoutFlag sched).mainPc ≠ .exited →
      ∃ t, (step env (run env servicesFlag timeoutFlag sched) t).isSome = true) ∧
    (∃ more, (run env servicesFlag timeoutFlag (sched ++ more)).mainPc = .exited) := by
  have hinv := run_inv env servicesFlag timeoutFlag sched hne
  refine ⟨hinv.noPanic, hinv.closes_le.1, ?_, ?_, ?_, ?_⟩
  · intro hc
    have hd := hinv.closed_all_done hc
    exact ⟨hd.2.1, hd.2.2.2.1, hd.1, hd.2.2.1, hd.2.2.2.2⟩
  · intro hx
    exact ⟨(hinv.atExit hx).1, hinv.exited_received hx⟩
  · intro hx
    exact deadlock_free env hinv hx
  · exact run_can_finish env servicesFlag timeoutFlag sched hne

/-- Witness of C8 on the flag `a:1, ,b`: at the end of the run the channel has
been closed once. -/
theorem C8_close_after_all_sends_witness :
    (run envAllUp "a:1, ,b" 5 demoScheduleReversed).mainPc = .exited ∧
    (run envAllUp "a:1, ,b" 5 demoScheduleReversed).closes = 1 :=
  ⟨by decide,
   ((C8_close_after_all_sends envAllUp "a:1, ,b" 5 demoScheduleReversed
      (by decide)).2.2.2.1 (by decide)).1⟩

/-- C9 as stated fails: on the flag `a:1,a:1` the launch loop starts two
checks, while the trimmed non-empty elements have one distinct value. -/
theorem C9_counterexample :
    (run envAllUp "a:1,a:1" 5 [.main, .main, .main]).mainPc = .draining ∧
    (run envAllUp "a:1,a:1" 5 [.main, .main, .main]).procs.length = 2 ∧
    (launchedAddresses (Split "a:1,a:1" ',')).dedup.length = 1 ∧
    (run envAllUp "a:1,a:1" 5 [.main, .main, .main]).procs.length ≠
      (launchedAddresses (Split "a:1,a:1" ',')).dedup.length := by
  decide

/-- C9, amended: for every `-services` flag, once the launch loop is over the
number of `checkService` goroutines launched is the number of elements of
`strings.Split(services, ",")` that are non-empty after `strings.TrimSpace`,
repeated values counted as often as they occur. -/
theorem C9_one_check_per_element (env : Env) (servicesFlag : String) (timeoutFlag : Int)
    (sched : List Tid)
    (hl : (run env servicesFlag timeoutFlag sched).mainPc ≠ .launching) :
    (run env servicesFlag timeoutFlag sched).procs.length =
      (Split servicesFlag ',').countP (fun t => decide (TrimSpace t ≠ "")) := by
  by_cases hne : servicesFlag = ""
  · subst hne
    have h0 : (mainStart "" timeoutFlag).mainPc = .exited := by simp [mainStart]
    unfold run
    rw [exec_exited env _ sched h0]
    simp [mainStart]
    decide
  · have hinv := run_inv env servicesFlag timeoutFlag sched hne
    obtain ⟨pre, h1, h2, _⟩ := hinv.launch
    rw [(hinv.afterLaunch hl).1, List.append_nil] at h1
    rw [h2, ← h1, launchedAddresses_length]

/-- Witness of C9 amended on the flag `a:1,a:1`: two checks are launched. -/
theorem C9_one_check_per_element_witness :
    (run envAllUp "a:1,a:1" 5 [.main, .main, .main]).procs.length = 2 :=
  (C9_one_check_per_element envAllUp "a:1,a:1" 5 [.main, .main, .main] (by decide)).trans
    (by decide)

/-- C10: for every `-services` flag the number of elements of the split is at
least the number of those that are non-empty once trimmed, and it is the
capacity of the channel, which is at least 1; every call of `checkService` sends exactly once; in
every state of every run the checks launched so far are no more than the
capacity, and the results already sent (received or buffered) together with the
sends still to come are no more than the capacity; hence a check whose next
effect is its send finds the channel open with room in the buffer, and its step
is the send itself, whether or not the drain loop has received anything. -/
theorem C10_send_never_blocks (env : Env) (servicesFlag : String) (timeoutFlag : Int)
    (sched : List Tid) :
    (Split servicesFlag ',').countP (fun t => decide (TrimSpace t ≠ "")) ≤
      (Split servicesFlag ',').length ∧
    (servicesFlag ≠ "" →
      (run env servicesFlag timeoutFlag sched).cap = (Split servicesFlag ',').length ∧
      0 < (run env servicesFlag timeoutFlag sched).cap) ∧
    (∀ a t w, (sendsOf (checkService a t w)).length = 1) ∧
    (run env servicesFlag timeoutFlag sched).procs.length ≤
      (run env servicesFlag timeoutFlag sched).cap ∧
    (run env servicesFlag timeoutFlag sched).received.length +
        (run env servicesFlag timeoutFlag sched).buf.length +
        ((run env servicesFlag timeoutFlag sched).procs.flatMap sendsOf).length ≤
      (run env servicesFlag timeoutFlag sched).cap ∧
    (∀ i r rest, (run env servicesFlag timeoutFlag sched).procs[i]? = some (.send r :: rest) →
      (run env servicesFlag timeoutFlag sched).closes = 0 ∧
      (run env servicesFlag timeoutFlag sched).buf.length <
        (run env servicesFlag timeoutFlag sched).cap ∧
      workerStep (run env servicesFlag timeoutFlag sched) i =
        some { run env servicesFlag timeoutFlag sched with
          procs := (run env servicesFlag timeoutFlag sched).procs.set i rest,
          buf := (run env servicesFlag timeoutFlag sched).buf ++ [r] }) := by
  refine ⟨List.countP_le_length _, ?_, checkService_sends_length, ?_⟩
  · intro hne
    have hcap := (run_inv env servicesFlag timeoutFlag sched hne).capEq
    exact ⟨hcap, by rw [hcap]; exact split_length_pos servicesFlag ','⟩
  · by_cases hne : servicesFlag = ""
    · subst hne
      have h0 : (mainStart "" timeoutFlag).mainPc = .exited := by simp [mainStart]
      unfold run
      rw [exec_exited env _ sched h0]
      simp [mainStart]
    · have hinv := run_inv env servicesFlag timeoutFlag sched hne
      have hc := hinv.count_le
      refine ⟨?_, by omega, ?_⟩
      · obtain ⟨pre, h1, h2, _⟩ := hinv.launch
        have h3 := launchedAddresses_length_le pre
        have h4 := congrArg List.length h1
        rw [List.length_append] at h4
        rw [h2, hinv.capEq]
        omega
      · intro i r rest hg
        have hen := hinv.send_enabled hg
        refine ⟨hen.1, hen.2, ?_⟩
        simp [workerStep, hg, hen.1, hen.2]

/-- Witness of C10 on the flag `a:1, ,b`: after the launch loop and the dial
and close of the first check, that check is at its send and its step appends
the result to the empty buffer. -/
theorem C10_send_never_blocks_witness :
    (run envAllUp "a:1, ,b" 5 [.main, .main, .main, .worker 0, .worker 0]).buf.length <
      (run envAllUp "a:1, ,b" 5 [.main, .main, .main, .worker 0, .worker 0]).cap :=
  ((C10_send_never_blocks envAllUp "a:1, ,b" 5
      [.main, .main, .main, .worker 0, .worker 0]).2.2.2.2.2 0
    { Address := "a:1", Available := true, Error := "", Duration := 0 }
    [.wgDone] (by decide)).2.1

end ServiceChecker
